import Mathlib

/-!
Verification of the calendar event view-model of this repository
(`src/calendar/EventPreviewView.js` — `CalendarEventViewModel`,
`saveAndSend`, `createRepeatRule`, `addAttendee`, `removeAttendee`) and the
invitation reply flow (`replyToEventInvitation`).

Conventions of the embedding:
* Timestamps are `Int` milliseconds since the Unix epoch, as JavaScript
  `Date.getTime()` values.
* A time zone is modelled as a fixed offset (milliseconds east of UTC); the
  calendar-date utilities from `CalendarUtils` are not part of the sources and
  are modelled from the spec on this offset representation.
* String-encoded integers of the entity model (`sequence`, `interval`,
  `endValue`) are modelled as `Nat`/`Int`; a JavaScript `NaN` produced by
  `filterInt` on a bad field is modelled as `Option.none`.
* Promise chains are sequential in the source (single-threaded event loop), so
  `saveAndSend` is embedded as a pure function returning its result together
  with the ordered list of external side effects (`Action` trace).
-/

namespace Tutanota

/-- Embeds `CalendarAttendeeStatus` from `TutanotaConstants`. -/
inductive AttStatus
  | added
  | needsAction
  | accepted
  | declined
  | tentative
deriving DecidableEq, Repr

/-- Embeds `RecipientInfoType` from `RecipientInfo`. -/
inductive RType
  | internal
  | external
  | unknown
deriving DecidableEq, Repr

/-- Embeds `RepeatPeriod` from `TutanotaConstants`. -/
inductive RepeatPeriod
  | daily
  | weekly
  | monthly
  | annually
deriving DecidableEq, Repr

/-- Embeds `EndType` from `TutanotaConstants`. -/
inductive EndType
  | never
  | count
  | untilDate
deriving DecidableEq, Repr

/-- Embeds `EventType` from `CalendarEventViewModel`. -/
inductive EventType
  | own
  | sharedRo
  | sharedRw
  | invite
deriving DecidableEq, Repr

/-- Embeds `EncryptedMailAddress` entity. -/
structure EncMailAddress where
  name : String
  address : String
deriving DecidableEq, Repr

/-- Embeds `CalendarEventAttendee` entity. -/
structure CalAttendee where
  address : EncMailAddress
  status : AttStatus
deriving DecidableEq, Repr

/-- Embeds `RepeatRule` entity (the fields written by `createRepeatRule`).
`endValue` models the string-encoded number; `none` stands for `NaN`. -/
structure RepeatRule where
  frequency : RepeatPeriod
  interval : Int
  endType : EndType
  endValue : Option Int
deriving DecidableEq, Repr

/-- Embeds `CalendarEvent` entity (the fields used by the view-model and the reply
flow). `hasId` models presence of `_id`; `sequence` models the
string-encoded revision counter. -/
structure CalendarEvent where
  summary : String
  description : String
  location : String
  startTime : Int
  endTime : Int
  organizer : Option EncMailAddress
  attendees : List CalAttendee
  repeatRule : Option RepeatRule
  sequence : Nat
  uid : Option String
  invitedConfidentially : Option Bool
  hasId : Bool
  ownerGroup : Option Nat
deriving DecidableEq, Repr

/-- Embeds `createCalendarEvent()` entity defaults. -/
def createCalendarEvent0 : CalendarEvent :=
  { summary := "", description := "", location := "", startTime := 0, endTime := 0,
    organizer := none, attendees := [], repeatRule := none, sequence := 0,
    uid := none, invitedConfidentially := none, hasId := false, ownerGroup := none }

/-- Embeds `UserError` from `api/common/error/UserError`. -/
structure UserError where
  msg : String
deriving DecidableEq, Repr

/-! ### Date utilities

The functions below are imported by the view-model from `CalendarUtils` /
`CommonCalendarUtils`, which are not part of the sources of this repository.
They are modelled from the spec on a fixed-offset representation of the
time zone. -/

/-- Milliseconds per day. -/
def dayMs : Int := 86400000

/-- Modelled from the spec: the local calendar-day number of instant `t` in a
zone with offset `zone` milliseconds east of UTC. -/
def dayOf (zone t : Int) : Int := (t + zone).fdiv dayMs

/-- Modelled from the spec: `getStartOfDayWithZone` of `CalendarUtils` — the
instant of local midnight of the local day containing `t`. -/
def getStartOfDayWithZone (t zone : Int) : Int := dayOf zone t * dayMs - zone

/-- Modelled from the spec: `getStartOfNextDayWithZone` of `CalendarUtils` —
the instant of local midnight of the local day after the one containing `t`. -/
def getStartOfNextDayWithZone (t zone : Int) : Int := (dayOf zone t + 1) * dayMs - zone

/-- Modelled from the spec: `getAllDayDateUTCFromZone` of `CalendarUtils` —
re-encodes the local calendar date of `t` as UTC midnight of the same
calendar date (the "UTC-encoded calendar date" of all-day events). -/
def getAllDayDateUTCFromZone (t zone : Int) : Int := dayOf zone t * dayMs

/-- Modelled from the spec: `getAllDayDateForTimezone` of `CalendarUtils` —
decodes a UTC-encoded calendar date back to local midnight in `zone`. -/
def getAllDayDateForTimezone (t zone : Int) : Int := t.fdiv dayMs * dayMs - zone

/-- Modelled from the spec: `isAllDayEvent` of `CommonCalendarUtils` — both
boundaries are UTC-encoded calendar dates (UTC midnights). -/
def isAllDayEvent (ev : CalendarEvent) : Bool :=
  ev.startTime % dayMs == 0 && ev.endTime % dayMs == 0

/-- Modelled from the spec: `getEventStart` of `CalendarUtils` — the resolved
start instant of the event in `zone`. -/
def getEventStart (ev : CalendarEvent) (zone : Int) : Int :=
  if isAllDayEvent ev then getAllDayDateForTimezone ev.startTime zone else ev.startTime

/-- Modelled from the spec: `DateTime.fromJSDate(d, \x7bzone\x7d).set(...)` of
luxon — replace the wall-clock hour and minute of `t` in `zone`. -/
def setHM (t zone h m : Int) : Int :=
  dayOf zone t * dayMs + h * 3600000 + m * 60000 - zone

/-- Result of `parseTime` of `CalendarUtils` (modelled from the spec: a
successfully parsed wall-clock time). -/
structure TimeParts where
  hours : Int
  minutes : Int
deriving DecidableEq, Repr

/-! ### Repeat rule construction (`CalendarEventViewModel.createRepeatRule`) -/

/-- Modelled from the spec: `createRepeatRuleWithValues` of `CalendarUtils` —
a fresh rule with the given frequency and interval and default end
condition. -/
def createRepeatRuleWithValues (freq : RepeatPeriod) (interval : Int) : RepeatRule :=
  { frequency := freq, interval := interval, endType := .never, endValue := some 1 }

/-- Embeds `RepeatData` — the user-facing repeat configuration held by the
view-model. `endValue` is a JavaScript number: `none` models `NaN`. -/
structure RepeatData where
  frequency : RepeatPeriod
  interval : Int
  endType : EndType
  endValue : Option Int
deriving DecidableEq, Repr

/-- Embeds `CalendarEventViewModel.createRepeatRule(newEvent, repeat)`.
`zone` and `allDay` stand for `this._zone` and `this.allDay()`.
In the `UntilDate` branch a `NaN` end value (`endValue = none`) makes the
`<` comparison false, so no error is raised and the stored value is `NaN`. -/
def createRepeatRule (zone : Int) (allDay : Bool) (newEvent : CalendarEvent)
    (rep : RepeatData) : Except UserError RepeatRule :=
  let interval := if rep.interval == 0 then 1 else rep.interval
  let repeatRule := { createRepeatRuleWithValues rep.frequency interval with endType := rep.endType }
  match rep.endType with
  | .count =>
    match rep.endValue with
    | none => .ok { repeatRule with endType := .never }
    | some count =>
      if count < 1 then .ok { repeatRule with endType := .never }
      else .ok { repeatRule with endValue := some count }
  | .untilDate =>
    match rep.endValue with
    | none => .ok { repeatRule with endValue := none }
    | some endv =>
      let repeatEndDate := getStartOfNextDayWithZone endv zone
      if repeatEndDate < getEventStart newEvent zone then
        .error { msg := "startAfterEnd_label" }
      else
        .ok { repeatRule with
              endValue := some (if allDay then getAllDayDateUTCFromZone repeatEndDate zone
                                else repeatEndDate) }
  | .never => .ok repeatRule

/-! ### View-model state

`SendMailModel` (`mail/SendMailModel`) is not part of the sources; it is
modelled from the spec as its bcc recipient list plus the confidential flag.
A `Recipient` carries the attributes that recipient resolution would attach:
the resolved type, the contact's pre-shared password, and the password
strength reported by `getPasswordStrength` (an external oracle). -/

structure Recipient where
  name : String
  address : String
  rtype : RType
  password : Option String
  pwStrength : Nat
deriving DecidableEq, Repr

/-- Modelled from the spec: `SendMailModel` — bcc recipients and the
confidential flag. -/
structure SendModel where
  bcc : List Recipient
  confidential : Bool
deriving DecidableEq, Repr

/-- Embeds `Guest` of `CalendarEventViewModel`. -/
structure Guest where
  address : EncMailAddress
  rtype : RType
  status : AttStatus
  password : Option String
deriving DecidableEq, Repr

/-- The `_guestStatuses` map: an association list with unique keys, written
through `addMapEntry` / `Map.delete` semantics. -/
def GuestStatuses := List (String × AttStatus)

instance : DecidableEq GuestStatuses := inferInstanceAs (DecidableEq (List (String × AttStatus)))

/-- Embeds `Map.get`. -/
def getStatus (m : List (String × AttStatus)) (k : String) : Option AttStatus :=
  (m.find? (fun p => p.1 == k)).map (·.2)

/-- Embeds `addMapEntry` of `MapUtils` (modelled from the spec): copy the map and
`Map.set` the key — replace the entry when the key is present, else append. -/
def setStatus (m : List (String × AttStatus)) (k : String) (v : AttStatus) :
    List (String × AttStatus) :=
  match m with
  | [] => [(k, v)]
  | p :: rest => if p.1 == k then (k, v) :: rest else p :: setStatus rest k v

/-- Embeds `Map.delete`: keep the entries whose key differs. -/
def delStatus (m : List (String × AttStatus)) (k : String) : List (String × AttStatus) :=
  match m with
  | [] => []
  | p :: rest => if p.1 != k then p :: delStatus rest k else delStatus rest k

/-- The state of `CalendarEventViewModel` relevant to saving.
`startTime`/`endTime` hold the `parseTime` result of the stored strings
(`none` when the string does not parse); `zone` is `this._zone` as a fixed
offset; `accountExternal` is `user.accountType === AccountType.EXTERNAL`;
`selectedCalendarGroup` is the id of `selectedCalendar().group`. -/
structure VMState where
  processing : Bool
  startDate : Int
  endDate : Int
  startTime : Option TimeParts
  endTime : Option TimeParts
  allDay : Bool
  zone : Int
  repeatData : Option RepeatData
  inviteModel : SendModel
  updateModel : SendModel
  cancelModel : SendModel
  ownAttendee : Option EncMailAddress
  guestStatuses : List (String × AttStatus)
  mailAddresses : List String
  organizer : Option EncMailAddress
  summary : String
  location : String
  note : String
  existingEvent : Option CalendarEvent
  eventType : EventType
  accountExternal : Bool
  selectedCalendarGroup : Option Nat
deriving DecidableEq, Repr

/-- The guest built from a bcc recipient in `_initAttendees`: status looked up
with default `NEEDS_ACTION`; an empty pre-shared password is collapsed to
`null` by `contact.presharedPassword || null`. -/
def guestOfRecipient (st : List (String × AttStatus)) (r : Recipient) : Guest :=
  { address := { name := r.name, address := r.address },
    status := (getStatus st r.address).getD .needsAction,
    rtype := r.rtype,
    password := match r.password with
                | some s => if s == "" then none else some s
                | none => none }

/-- Embeds `attendees()` (`_initAttendees`): guests of the invite model then the
update model, with the own attendee unshifted in front (status default
`ACCEPTED`, type `INTERNAL`, no password). -/
def VMState.attendees (vm : VMState) : List Guest :=
  let guests := (vm.inviteModel.bcc ++ vm.updateModel.bcc).map (guestOfRecipient vm.guestStatuses)
  match vm.ownAttendee with
  | some own =>
    { address := own,
      status := (getStatus vm.guestStatuses own.address).getD .accepted,
      rtype := .internal, password := none } :: guests
  | none => guests

/-- Embeds `findOwnAttendee()`. -/
def VMState.findOwnAttendee (vm : VMState) : Option Guest :=
  vm.attendees.find? (fun a => vm.mailAddresses.contains a.address.address)

/-- Embeds `_viewingOwnEvent()`. -/
def VMState.viewingOwnEvent (vm : VMState) : Bool := vm.eventType == .own

/-- Embeds `canModifyOwnAttendance()`. -/
def VMState.canModifyOwnAttendance (vm : VMState) : Bool :=
  (vm.eventType == .own || vm.eventType == .invite)
    && (vm.viewingOwnEvent || vm.findOwnAttendee.isSome)

/-- Embeds `isConfidential()`. -/
def VMState.isConfidential (vm : VMState) : Bool :=
  vm.inviteModel.confidential && vm.updateModel.confidential && vm.cancelModel.confidential

/-- Embeds `selectGoing(going)`. `firstThrow(this._mailAddresses)` is modelled with
`headD` (the theorems assume a non-empty address list); the fresh own
attendee has no name, as `createEncryptedMailAddress(\x7baddress\x7d)`. -/
def VMState.selectGoing (vm : VMState) (going : AttStatus) : VMState :=
  if vm.canModifyOwnAttendance then
    match vm.ownAttendee with
    | some own => { vm with guestStatuses := setStatus vm.guestStatuses own.address going }
    | none =>
      if vm.eventType == .own then
        let newOwn : EncMailAddress := { name := "", address := vm.mailAddresses.headD "" }
        { vm with ownAttendee := some newOwn,
                  guestStatuses := setStatus vm.guestStatuses newOwn.address going }
      else vm
  else vm

/-- The recipient insertion and status entry of `addAttendee` (its effect
before the possible `selectGoing` call); the `SendMailModel.addRecipient`
call is modelled as appending the resolved recipient `r` (whose `address`
field is the mail address) to the invite model's bcc list. -/
def addAux (vm : VMState) (r : Recipient) : VMState :=
  { vm with
    inviteModel := { vm.inviteModel with bcc := vm.inviteModel.bcc ++ [r] },
    guestStatuses := setStatus vm.guestStatuses r.address
      (if vm.mailAddresses.contains r.address then AttStatus.accepted else AttStatus.added) }

def VMState.addAttendee (vm : VMState) (r : Recipient) : VMState :=
  if vm.attendees.any (fun a => a.address.address == r.address) then vm
  else
    let vm1 := addAux vm r
    if vm1.attendees.length == 1 && vm1.findOwnAttendee.isNone then
      vm1.selectGoing .accepted
    else vm1

/-- One iteration of the model loop in `removeAttendee`: if a bcc recipient
with the address exists, remove it from the model and delete its guest
status. -/
def removeFromModel (m : SendModel) (st : List (String × AttStatus)) (addr : String) :
    SendModel × List (String × AttStatus) :=
  if m.bcc.any (fun r => r.address == addr) then
    ({ m with bcc := m.bcc.eraseP (fun r => r.address == addr) }, delStatus st addr)
  else (m, st)

/-- Embeds `removeAttendee(guest)`, keyed by the guest's mail address. The loop runs
over invite, update and cancel models in order; afterwards, if the address
belongs to an attendee of the existing event, that attendee is added to the
cancel model (with no contact). -/
def VMState.removeAttendee (vm : VMState) (addr : String) : VMState :=
  let existingRecipient :=
    vm.existingEvent.bind (fun ev => ev.attendees.find? (fun a => a.address.address == addr))
  let r1 := removeFromModel vm.inviteModel vm.guestStatuses addr
  let r2 := removeFromModel vm.updateModel r1.2 addr
  let r3 := removeFromModel vm.cancelModel r2.2 addr
  let vm1 := { vm with inviteModel := r1.1, updateModel := r2.1, cancelModel := r3.1,
                       guestStatuses := r3.2 }
  match existingRecipient with
  | some ea =>
    { vm1 with cancelModel :=
        { vm1.cancelModel with bcc := vm1.cancelModel.bcc ++
            [{ name := ea.address.name, address := ea.address.address,
               rtype := .unknown, password := none, pwStrength := 0 }] } }
  | none => vm1

/-- Embeds `_checkPasswords()` rejects (throws `UserError("noPreSharedPassword_msg")`)
iff some guest is external with a null or empty password. -/
def checkPasswordsRejects (guests : List Guest) : Bool :=
  guests.any (fun a => a.rtype == .external && (a.password == none || a.password == some ""))

/-! ### The save pipeline (`saveAndSend`) -/

/-- A thrown exception inside `saveAndSend`: a `UserError` shown to the user,
or a programming-error throw (`assertNotNull` failure). -/
inductive SaveErr
  | user (u : UserError)
  | crash
deriving DecidableEq, Repr

/-- An external side effect, in the order it is initiated: the three
distributor notification sends (with the recipient addresses of the send
model used), the response send (organizer destination and own sender
address), and persistence through `CalendarModel`. -/
inductive Action
  | sendInvite (recipients : List String)
  | sendCancellation (recipients : List String)
  | sendUpdate (recipients : List String)
  | sendResponse (organizer : Option EncMailAddress) (sender : String)
  | createEvent (ev : CalendarEvent)
  | updateEvent (ev : CalendarEvent)
deriving DecidableEq, Repr

/-- Lines 695–716: the start and end instants of the event being saved.
All-day: UTC-encoded dates of the start day and of the day after the end
day. Timed: wall-clock times from `parseTime` applied to the dates in
`this._zone`; an unparsable time raises `timeFormatInvalid_msg`. -/
def computeTimes (vm : VMState) : Except SaveErr (Int × Int) :=
  if vm.allDay then
    .ok (getAllDayDateUTCFromZone vm.startDate vm.zone,
         getAllDayDateUTCFromZone (getStartOfNextDayWithZone vm.endDate vm.zone) vm.zone)
  else
    match vm.startTime, vm.endTime with
    | some st, some et =>
      .ok (setHM vm.startDate vm.zone st.hours st.minutes,
           setHM vm.endDate vm.zone et.hours et.minutes)
    | _, _ => .error (.user { msg := "timeFormatInvalid_msg" })

/-- Modelled from the spec: `generateUid(groupId, timestamp)` of
`CalendarUtils` produces a fresh uid from the selected calendar's group. -/
def generateUid (g : Nat) : String := "uid-" ++ toString g

/-- Embeds `newEvent.uid`: keep the existing uid, otherwise generate one from
`assertNotNull(selectedCalendar).group._id` (crash when no calendar is
selected). -/
def genUid (vm : VMState) : Except SaveErr (Option String) :=
  match vm.selectedCalendarGroup with
  | some g => .ok (some (generateUid g))
  | none => .error .crash

/-- Lines 689–748 of `saveAndSend`: build `newEvent` from the view-model —
clone of the existing event (or entity defaults), computed times, time-range
check, summary/location/description/confidentiality, uid, repeat rule,
attendees, incremented sequence, organizer. -/
def buildEvent (vm : VMState) : Except SaveErr CalendarEvent :=
  match computeTimes vm with
  | .error e => .error e
  | .ok (s, e) =>
    if e ≤ s then .error (.user { msg := "startAfterEnd_label" })
    else
      let base := vm.existingEvent.getD createCalendarEvent0
      let ev0 := { base with
                   startTime := s, description := vm.note, summary := vm.summary,
                   location := vm.location, endTime := e,
                   invitedConfidentially := some vm.isConfidential }
      let uidE : Except SaveErr (Option String) :=
        match vm.existingEvent with
        | some ex => if ex.uid.isSome then .ok ex.uid else genUid vm
        | none => genUid vm
      match uidE with
      | .error er => .error er
      | .ok uid =>
        let repE : Except SaveErr (Option RepeatRule) :=
          match vm.repeatData with
          | none => .ok none
          | some rep =>
            match createRepeatRule vm.zone vm.allDay { ev0 with uid := uid } rep with
            | .ok r => .ok (some r)
            | .error u => .error (.user u)
        match repE with
        | .error er => .error er
        | .ok rr =>
          .ok { ev0 with
                uid := uid, repeatRule := rr,
                attendees := vm.attendees.map
                  (fun (g : Guest) => ({ address := g.address, status := g.status } : CalAttendee)),
                sequence := match vm.existingEvent with
                            | some ex => ex.sequence + 1
                            | none => ev0.sequence,
                organizer := vm.organizer }

/-- Embeds `_allRecipients()` restricted to the bcc lists the view-model fills
(`_waitForResolvedRecipients` resolves these same recipients). -/
def VMState.allRecipients (vm : VMState) : List Recipient :=
  vm.inviteModel.bcc ++ vm.updateModel.bcc ++ vm.cancelModel.bcc

/-- Embeds `hasInsecurePasswords()`: only confidential non-invite events; only
recipients that do have a pre-shared password are checked, against strength
threshold 80. -/
def VMState.hasInsecurePasswords (vm : VMState) : Bool :=
  if !vm.isConfidential then false
  else if vm.eventType == .invite then false
  else
    vm.isConfidential &&
      ((vm.allRecipients.filter (fun r =>
          match r.password with
          | some s => s != ""
          | none => false)).any (fun r => r.pwStrength < 80))

/-- The `passwordCheck` closure of `saveAndSend`. -/
def passwordCheck (vm : VMState) (askInsecurePassword : Bool) : Bool :=
  if vm.hasInsecurePasswords then askInsecurePassword else true

/-- Lines 750–761: the update recipients collected at save time — for the
user's own existing event, every current guest that is not one of the user's
own addresses and appears among the original event's attendees. -/
def VMState.existingAttendees (vm : VMState) : List Guest :=
  match vm.existingEvent with
  | some ev =>
    if vm.viewingOwnEvent then
      vm.attendees.filter (fun g =>
        !(vm.mailAddresses.contains g.address.address)
          && ev.attendees.any (fun ea => ea.address.address == g.address.address))
    else []
  | none => []

/-- Embeds `ADDED → NEEDS_ACTION` on the event's attendees after a sent invite. -/
def resetAdded (l : List CalAttendee) : List CalAttendee :=
  l.map (fun a => if a.status == .added then { a with status := .needsAction } else a)

/-- Embeds `_sendInvite(event)`: when the event has attendees with status `ADDED`,
send one invite through the invite model and reset those statuses (on the
event and in `_guestStatuses`). Returns the (possibly mutated) event, the
new status map, and the emitted actions. -/
def sendInviteStage (vm : VMState) (ev : CalendarEvent) :
    CalendarEvent × List (String × AttStatus) × List Action :=
  let newAtts := ev.attendees.filter (fun a => a.status == .added)
  if newAtts.isEmpty then (ev, vm.guestStatuses, [])
  else
    ({ ev with attendees := resetAdded ev.attendees },
     newAtts.foldl (fun st a => setStatus st a.address.address .needsAction) vm.guestStatuses,
     [.sendInvite (vm.inviteModel.bcc.map (·.address))])

/-- The `doCreateEvent` closure: external accounts persist nothing; otherwise
create when there is no existing stored event (`_id` missing), else update. -/
def doCreateEventActions (vm : VMState) (ev : CalendarEvent) : Except SaveErr (List Action) :=
  if vm.accountExternal then .ok []
  else
    match vm.selectedCalendarGroup with
    | none => .error .crash
    | some _ =>
      match vm.existingEvent with
      | none => .ok [.createEvent ev]
      | some ex => if ex.hasId then .ok [.updateEvent ev] else .ok [.createEvent ev]

/-- Replace the status of the first attendee with the given address. -/
def updateFirstStatus : List CalAttendee → String → AttStatus → List CalAttendee
  | [], _, _ => []
  | a :: rest, addr, st =>
    if a.address.address == addr then { a with status := st } :: rest
    else a :: updateFirstStatus rest addr st

/-- Lines 762–777: for a non-own event with a changed own attendance, mutate
the existing event's own attendee in place and dispatch one response to the
organizer (both `going` and the organizer are `assertNotNull`ed). -/
def responseStage (vm : VMState) : Except SaveErr (VMState × List Action) :=
  match vm.existingEvent with
  | none => .ok (vm, [])
  | some ex =>
    match ex.attendees.find? (fun a => vm.mailAddresses.contains a.address.address) with
    | none => .ok (vm, [])
    | some ownAtt =>
      let going := getStatus vm.guestStatuses ownAtt.address.address
      if going != some .needsAction && going != some ownAtt.status then
        match going with
        | none => .error .crash
        | some g =>
          match ex.organizer with
          | none => .error .crash
          | some org =>
            let ex' := { ex with
                         attendees := updateFirstStatus ex.attendees ownAtt.address.address g }
            .ok ({ vm with existingEvent := some ex' },
                 [.sendResponse (some org) ownAtt.address.address])
      else .ok (vm, [])

/-- The result of `saveAndSend`: the resolved boolean, a rejected
`UserError`, or a programming-error throw. -/
inductive SaveRes
  | ok (b : Bool)
  | err (u : UserError)
  | crash
deriving DecidableEq, Repr

structure SaveOutcome where
  result : SaveRes
  trace : List Action
  state : VMState
deriving DecidableEq, Repr

/-- Embeds `saveAndSend(\x7baskForUpdates, askInsecurePassword, showProgress\x7d)`.
The two dialog callbacks are modelled by the booleans their promises resolve
to. The trace lists the external effects in initiation order. The
`_processing` flag is set on entry and reset in the `finally`, so on every
completed call the returned state keeps its input value `false`; a call
while `_processing` is `true` resolves `false` immediately. -/
def saveAndSend (vm : VMState) (askForUpdates askInsecurePassword : Bool) : SaveOutcome :=
  if vm.processing then { result := .ok false, trace := [], state := vm }
  else
    match buildEvent vm with
    | .error (.user u) => { result := .err u, trace := [], state := vm }
    | .error .crash => { result := .crash, trace := [], state := vm }
    | .ok newEvent =>
      if vm.viewingOwnEvent then
        let existingAtts := vm.existingAttendees
        if !existingAtts.isEmpty || !vm.cancelModel.bcc.isEmpty then
          -- ask for update
          let sendOutUpdate := askForUpdates
          let send := if sendOutUpdate then passwordCheck vm askInsecurePassword else true
          if !send then { result := .ok false, trace := [], state := vm }
          else
            let (ev1, st1, inviteActs) := sendInviteStage vm newEvent
            let cancelActs :=
              if vm.cancelModel.bcc.isEmpty then []
              else [Action.sendCancellation (vm.cancelModel.bcc.map (·.address))]
            match doCreateEventActions vm ev1 with
            | .error _ =>
              { result := .crash, trace := inviteActs ++ cancelActs,
                state := { vm with guestStatuses := st1 } }
            | .ok persistActs =>
              let updateActs :=
                if sendOutUpdate && !existingAtts.isEmpty then
                  [Action.sendUpdate (vm.updateModel.bcc.map (·.address))]
                else []
              { result := .ok true,
                trace := inviteActs ++ cancelActs ++ persistActs ++ updateActs,
                state := { vm with guestStatuses := st1 } }
        else
          -- just create the event if there are no existing recipients
          let send := passwordCheck vm askInsecurePassword
          if !send then { result := .ok false, trace := [], state := vm }
          else
            let (ev1, st1, inviteActs) := sendInviteStage vm newEvent
            match doCreateEventActions vm ev1 with
            | .error _ =>
              { result := .crash, trace := inviteActs,
                state := { vm with guestStatuses := st1 } }
            | .ok persistActs =>
              { result := .ok true, trace := inviteActs ++ persistActs,
                state := { vm with guestStatuses := st1 } }
      else
        match responseStage vm with
        | .error _ => { result := .crash, trace := [], state := vm }
        | .ok (vm1, respActs) =>
          let send := passwordCheck vm1 askInsecurePassword
          if send then
            match doCreateEventActions vm1 newEvent with
            | .error _ => { result := .crash, trace := respActs, state := vm1 }
            | .ok persistActs =>
              { result := .ok true, trace := respActs ++ persistActs, state := vm1 }
          else { result := .ok true, trace := respActs, state := vm1 }

/-! ### Trace components of a successful own-event save

These definitions name the four ordered segments of the side-effect trace of
a successful save of the user's own event; they are computed from the same
stage functions `saveAndSend` uses. -/

/-- The invite segment: one invite through the invite model when the built
event has `ADDED` attendees. -/
def inviteActions (vm : VMState) : List Action :=
  match buildEvent vm with
  | .ok ev => (sendInviteStage vm ev).2.2
  | .error _ => []

/-- The cancellation segment: one cancellation through the cancel model when
it has recipients. -/
def cancelActions (vm : VMState) : List Action :=
  if vm.cancelModel.bcc.isEmpty then []
  else [Action.sendCancellation (vm.cancelModel.bcc.map (·.address))]

/-- The persistence segment: `doCreateEvent` on the event after the invite
stage. -/
def persistActions (vm : VMState) : List Action :=
  match buildEvent vm with
  | .ok ev =>
    match doCreateEventActions vm (sendInviteStage vm ev).1 with
    | .ok acts => acts
    | .error _ => []
  | .error _ => []

/-- The update segment: one update through the update model, only when the
user confirmed sending updates and there are remaining existing attendees. -/
def updateActions (vm : VMState) (askForUpdates : Bool) : List Action :=
  if askForUpdates && !vm.existingAttendees.isEmpty then
    [Action.sendUpdate (vm.updateModel.bcc.map (·.address))]
  else []

/-! ### The invitation reply flow (`replyToEventInvitation`) -/

structure ReplyOutcome where
  event : CalendarEvent
  trace : List Action
deriving DecidableEq, Repr

/-- Embeds `replyToEventInvitation(event, attendee, decision, previousMail)`.
The target attendee is identified by its mail address. `hasPrivateCalendar`
models the result of `getOrCreatePrivateCalendar()`. The caller's `event` is
cloned; the found attendee of the clone gets the decision as status and the
sequence is incremented (`incrementSequence`, modelled from the spec as
successor). One response is dispatched through the distributor (addressed to
the organizer, sent from the found attendee's address); then the clone is
persisted — update in place when the event has an owner group (preserving
its loaded alarms), otherwise a fresh create. A missing target attendee
makes `assertNotNull` throw (`none`). -/
def replyToEventInvitation (event : CalendarEvent) (attendeeAddr : String)
    (decision : AttStatus) (hasPrivateCalendar : Bool) : Option ReplyOutcome :=
  match event.attendees.find? (fun a => a.address.address == attendeeAddr) with
  | none => none
  | some found =>
    let eventClone := { event with
                        attendees := updateFirstStatus event.attendees attendeeAddr decision,
                        sequence := event.sequence + 1 }
    let persistActs :=
      if hasPrivateCalendar then
        if event.ownerGroup.isSome then [Action.updateEvent eventClone]
        else [Action.createEvent eventClone]
      else []
    some { event := eventClone,
           trace := Action.sendResponse event.organizer found.address.address :: persistActs }

/-! ### Construction and guest-list editing (for the recipient diff)

`_initGuestStatus` and the constructor populate the own attendee, the update
model and the status map from the existing event; afterwards the guest list
is edited through `addAttendee` / `removeAttendee`. -/

/-- Modelled from the spec: recipient resolution of `SendMailModel` — the
attributes attached to a recipient with the given address. -/
structure Resolver where
  rtypeOf : String → RType
  passwordOf : String → Option String
  strengthOf : String → Nat

/-- The recipient that resolution produces for an existing attendee's
address. -/
def Resolver.recipientOf (res : Resolver) (a : EncMailAddress) : Recipient :=
  { name := a.name, address := a.address, rtype := res.rtypeOf a.address,
    password := res.passwordOf a.address, pwStrength := res.strengthOf a.address }

/-- Embeds `_initGuestStatus(existingEvent)` together with the update-model
population: own addresses set `_ownAttendee`, the rest become update-model
bcc recipients; every attendee's status is recorded
(`getAttendeeStatus` of `TutanotaConstants`, modelled from the spec as the
attendee's stored status). -/
def initStep (mails : List String) (res : Resolver)
    (acc : Option EncMailAddress × SendModel × List (String × AttStatus)) (att : CalAttendee) :
    Option EncMailAddress × SendModel × List (String × AttStatus) :=
  if mails.contains att.address.address then
    (some att.address, acc.2.1, setStatus acc.2.2 att.address.address att.status)
  else
    (acc.1, { acc.2.1 with bcc := acc.2.1.bcc ++ [res.recipientOf att.address] },
     setStatus acc.2.2 att.address.address att.status)

def initGuestState (existingAtts : List CalAttendee) (mails : List String) (res : Resolver) :
    Option EncMailAddress × SendModel × List (String × AttStatus) :=
  existingAtts.foldl (initStep mails res) (none, { bcc := [], confidential := false }, [])

/-- The view-model state right after construction from the user's own
existing event (edit dialog on a personal calendar): empty invite and cancel
models, own attendee / update model / statuses from `initGuestState`. The
date and time fields are immaterial to the recipient diff and take the
constructor-independent defaults used here. -/
def mkOwnVM (ev0 : CalendarEvent) (mails : List String) (res : Resolver) : VMState :=
  let init := initGuestState ev0.attendees mails res
  { processing := false, startDate := 0, endDate := 0, startTime := none, endTime := none,
    allDay := true, zone := 0, repeatData := none,
    inviteModel := { bcc := [], confidential := false },
    updateModel := init.2.1,
    cancelModel := { bcc := [], confidential := false },
    ownAttendee := init.1, guestStatuses := init.2.2,
    mailAddresses := mails, organizer := none, summary := "", location := "", note := "",
    existingEvent := some ev0, eventType := .own, accountExternal := false,
    selectedCalendarGroup := some 0 }

/-- A guest-list edit: the two public mutators that feed the recipient
diff. `add` carries the resolved recipient attributes of the added address. -/
inductive GuestOp
  | add (addr : String) (rtype : RType) (pw : Option String) (strength : Nat)
  | remove (addr : String)
deriving DecidableEq, Repr

def applyOp (vm : VMState) : GuestOp → VMState
  | .add addr t p s =>
    vm.addAttendee { name := "", address := addr, rtype := t, password := p, pwStrength := s }
  | .remove addr => vm.removeAttendee addr

def execOps (vm : VMState) (ops : List GuestOp) : VMState := ops.foldl applyOp vm

/-! ### The three notification categories of the recipient diff -/

/-- The addresses of the current attendee list. -/
def attendeeAddrs (vm : VMState) : List String := vm.attendees.map (·.address.address)

/-- The invite category: the invite model's recipients at save time —
exactly the addresses `_sendInvite` targets through
`sendInvite(event, this._inviteModel)` (the same list `sendInviteStage`
records in its `sendInvite` action). -/
def invitedAddresses (vm : VMState) : List String :=
  vm.inviteModel.bcc.map (·.address)

/-- The update category: the addresses of `existingAttendees` collected at
save time. -/
def updatedAddresses (vm : VMState) : List String :=
  vm.existingAttendees.map (·.address.address)

/-- The cancel category: the cancel model's recipients at save time. -/
def cancelledAddresses (vm : VMState) : List String :=
  vm.cancelModel.bcc.map (·.address)

/-- Predicate for persistence actions in a trace. -/
def Action.isPersist : Action → Bool
  | .createEvent _ => true
  | .updateEvent _ => true
  | _ => false

/-- Predicate for response actions in a trace. -/
def Action.isResponse : Action → Bool
  | .sendResponse _ _ => true
  | _ => false

/-! ## Theorems -/

instance {ε α : Type} [DecidableEq ε] [DecidableEq α] : DecidableEq (Except ε α) := fun x y =>
  match x, y with
  | .ok a, .ok b => if h : a = b then isTrue (by rw [h]) else isFalse (by simp [h])
  | .error a, .error b => if h : a = b then isTrue (by rw [h]) else isFalse (by simp [h])
  | .ok _, .error _ => isFalse (by simp)
  | .error _, .ok _ => isFalse (by simp)

/-- Helper: an end instant not after the start instant makes event
construction fail with the time-range user error. -/
theorem buildEvent_rangeError (vm : VMState) (s e : Int)
    (ht : computeTimes vm = .ok (s, e)) (hle : e ≤ s) :
    buildEvent vm = .error (.user { msg := "startAfterEnd_label" }) := by
  unfold buildEvent
  rw [ht]
  simp [hle]

/-- Helper: a `UserError` thrown while building the event rejects the save
before any side effect: empty trace, unchanged state. -/
theorem saveAndSend_userError_aborts (vm : VMState) (a i : Bool) (u : UserError)
    (hp : vm.processing = false) (hb : buildEvent vm = .error (.user u)) :
    saveAndSend vm a i = { result := .err u, trace := [], state := vm } := by
  unfold saveAndSend
  rw [hp, hb]
  rfl

/-- C1: for every save attempt whose computed end instant is less than or
equal to the computed start instant, `saveAndSend` rejects with the
`startAfterEnd_label` user error, the side-effect trace is empty (no
`createEvent`/`updateEvent`, no notification send), and the view-model state
is unchanged. -/
theorem saveAndSend_rejects_end_not_after_start (vm : VMState) (a i : Bool) (s e : Int)
    (hp : vm.processing = false) (ht : computeTimes vm = .ok (s, e)) (hle : e ≤ s) :
    saveAndSend vm a i =
      { result := .err { msg := "startAfterEnd_label" }, trace := [], state := vm } :=
  saveAndSend_userError_aborts vm a i _ hp (buildEvent_rangeError vm s e ht hle)

/-- An all-day view-model whose end day precedes its start day (used as the
C1 witness; the computed boundaries coincide, the `≤` case of the claim). -/
def vmW1 : VMState :=
  { processing := false, startDate := 86400000, endDate := 0, startTime := none,
    endTime := none, allDay := true, zone := 0, repeatData := none,
    inviteModel := { bcc := [], confidential := false },
    updateModel := { bcc := [], confidential := false },
    cancelModel := { bcc := [], confidential := false },
    ownAttendee := none, guestStatuses := [], mailAddresses := ["me@a.b"],
    organizer := none, summary := "", location := "", note := "",
    existingEvent := none, eventType := .own, accountExternal := false,
    selectedCalendarGroup := some 1 }

/-- Witness for C1 at a concrete state. -/
theorem saveAndSend_rejects_end_not_after_start_witness :
    vmW1.processing = false ∧ computeTimes vmW1 = .ok (86400000, 86400000) ∧
    (86400000 : Int) ≤ 86400000 ∧
    saveAndSend vmW1 true true =
      { result := .err { msg := "startAfterEnd_label" }, trace := [], state := vmW1 } :=
  ⟨rfl, by decide, by decide,
   saveAndSend_rejects_end_not_after_start vmW1 true true 86400000 86400000 rfl
     (by decide) (by decide)⟩

/-- C3: while a save is in flight (`_processing` true), a second
`saveAndSend` call resolves `false` with no error, no side effect and an
unchanged view-model state. -/
theorem saveAndSend_busy_drops (vm : VMState) (a i : Bool) (h : vm.processing = true) :
    saveAndSend vm a i = { result := .ok false, trace := [], state := vm } := by
  unfold saveAndSend
  rw [h]
  rfl

/-- A view-model with the busy flag set (C3 witness). -/
def vmW3 : VMState := { vmW1 with processing := true }

/-- Witness for C3 at a concrete state. -/
theorem saveAndSend_busy_drops_witness :
    vmW3.processing = true ∧
    saveAndSend vmW3 true true = { result := .ok false, trace := [], state := vmW3 } :=
  ⟨rfl, saveAndSend_busy_drops vmW3 true true rfl⟩

/-- C7: with end type `Count`, a `NaN` or sub-1 end value degrades silently
to a `Never` rule (no error), and an end value of at least 1 is stored as
the occurrence count. -/
theorem createRepeatRule_count_fallback (zone : Int) (allDay : Bool) (ev : CalendarEvent)
    (rep : RepeatData) (h : rep.endType = .count) :
    ((rep.endValue = none ∨ ∃ v, rep.endValue = some v ∧ v < 1) →
      ∃ r, createRepeatRule zone allDay ev rep = .ok r ∧ r.endType = .never) ∧
    (∀ v, rep.endValue = some v → 1 ≤ v →
      ∃ r, createRepeatRule zone allDay ev rep = .ok r ∧ r.endType = .count ∧
        r.endValue = some v) := by
  rcases rep with ⟨f, iv, et, evv⟩
  simp only at h
  subst h
  constructor
  · rintro (hv | ⟨v, hv, hlt⟩) <;> simp only at hv <;> subst hv
    · exact ⟨{ frequency := f, interval := if iv == 0 then 1 else iv,
               endType := .never, endValue := some 1 }, rfl, rfl⟩
    · refine ⟨{ frequency := f, interval := if iv == 0 then 1 else iv,
                endType := .never, endValue := some 1 }, ?_, rfl⟩
      simp only [createRepeatRule]
      rw [if_pos hlt]
      rfl
  · intro v hv hge
    simp only at hv
    subst hv
    refine ⟨{ frequency := f, interval := if iv == 0 then 1 else iv,
              endType := .count, endValue := some v }, ?_, rfl, rfl⟩
    simp only [createRepeatRule]
    rw [if_neg (by omega)]
    rfl

/-- A count-type repeat configuration with an invalid (sub-1) end value
(C7 witness). -/
def repW7 : RepeatData :=
  { frequency := .daily, interval := 1, endType := .count, endValue := some 0 }

/-- Witness for C7 at a concrete input. -/
theorem createRepeatRule_count_fallback_witness :
    repW7.endType = .count ∧
    (∃ r, createRepeatRule 0 false createCalendarEvent0 repW7 = .ok r ∧
      r.endType = .never) :=
  ⟨rfl, (createRepeatRule_count_fallback 0 false createCalendarEvent0 repW7 rfl).1
    (Or.inr ⟨0, rfl, by decide⟩)⟩

/-- Fixed offset of Central European Summer Time (+02:00), in milliseconds. -/
def cestOffset : Int := 7200000

/-- An all-day event on epoch days 19792–19793 (2024-03-10, one day), used
for the C8 example. -/
def evC8 : CalendarEvent :=
  { createCalendarEvent0 with
    startTime := 19792 * 86400000, endTime := 19793 * 86400000 }

/-- Repeat configuration "until 2024-04-01": the end value is the instant of
local midnight of 2024-04-01 (epoch day 19814) in the +02:00 zone, as the
date picker stores it. -/
def repC8 : RepeatData :=
  { frequency := .weekly, interval := 1, endType := .untilDate,
    endValue := some (19814 * 86400000 - 7200000) }

/-- C8: for an all-day event with repeat end "until 2024-04-01", the
persisted end value is `19815 * 86400000` = 1712016000000 ms = UTC midnight
of 2024-04-02 — the exclusive boundary one day later, re-encoded as a UTC
calendar date rather than the zoned instant. -/
theorem untilDate_allDay_example_20240401 :
    createRepeatRule cestOffset true evC8 repC8 =
      .ok { frequency := .weekly, interval := 1, endType := .untilDate,
            endValue := some (19815 * 86400000) } := by
  decide

/-- An all-day event spanning epoch day 2 (UTC-encoded boundaries), zone
offset 0. Its resolved start is `172800000`. -/
def evC6 : CalendarEvent :=
  { createCalendarEvent0 with startTime := 172800000, endTime := 259200000 }

/-- Until-date repeat data whose computed boundary (start of the day after
epoch day 1, i.e. `172800000`) coincides with the event's resolved start. -/
def repC6 : RepeatData :=
  { frequency := .daily, interval := 1, endType := .untilDate, endValue := some 86400000 }

/-- A view-model saving `evC6` with the `repC6` repeat configuration. -/
def vmC6 : VMState :=
  { vmW1 with startDate := 172800000, endDate := 172800000, repeatData := some repC6 }

/-- Counterexample to C6: when the computed until-date boundary equals the
event's resolved start (`boundary ≤ start` with equality), no user error is
raised — the rule is built (boundary stored) and the save persists the
event, contradicting the claim that every `boundary ≤ start` case errors
and persists nothing. -/
theorem untilDate_boundary_eq_start_counterexample :
    getStartOfNextDayWithZone 86400000 0 = getEventStart evC6 0 ∧
    repC6.endType = .untilDate ∧
    createRepeatRule 0 true evC6 repC6 =
      .ok { frequency := .daily, interval := 1, endType := .untilDate,
            endValue := some 172800000 } ∧
    (saveAndSend vmC6 true true).result = .ok true ∧
    ((saveAndSend vmC6 true true).trace.any Action.isPersist) = true := by
  decide

/-- C6 (amended): the until-date boundary is computed with
`getStartOfNextDayWithZone` in the event's resolved zone, and whenever that
boundary is strictly before the event's resolved start, building the rule
raises the `startAfterEnd_label` user error; a user error raised while the
event is being built aborts the save with an empty side-effect trace, so
nothing is persisted and nothing is sent. (At `boundary = start` the source
accepts the rule: the comparison on line 888 is strict.) -/
theorem untilDate_boundary_before_start_rejected :
    (∀ (zone : Int) (allDay : Bool) (ev : CalendarEvent) (rep : RepeatData) (v : Int),
      rep.endType = .untilDate → rep.endValue = some v →
      getStartOfNextDayWithZone v zone < getEventStart ev zone →
      createRepeatRule zone allDay ev rep = .error { msg := "startAfterEnd_label" }) ∧
    (∀ (vm : VMState) (a i : Bool) (u : UserError), vm.processing = false →
      buildEvent vm = .error (.user u) →
      saveAndSend vm a i = { result := .err u, trace := [], state := vm }) := by
  constructor
  · intro zone allDay ev rep v hend hv hb
    rcases rep with ⟨f, iv, et, evv⟩
    simp only at hend hv
    subst hend
    subst hv
    simp only [createRepeatRule]
    rw [if_pos hb]
  · exact fun vm a i u hp hb => saveAndSend_userError_aborts vm a i u hp hb

/-- Until-date repeat data whose boundary (start of the day after epoch
day 0) is strictly before the resolved start of `evC6` (witness for the
amended C6). -/
def repA6 : RepeatData :=
  { frequency := .daily, interval := 1, endType := .untilDate, endValue := some 0 }

/-- A view-model saving `evC6` with the `repA6` repeat configuration. -/
def vmA6 : VMState :=
  { vmW1 with startDate := 172800000, endDate := 172800000, repeatData := some repA6 }

/-- Witness for the amended C6 at concrete inputs. -/
theorem untilDate_boundary_before_start_rejected_witness :
    (repA6.endType = .untilDate ∧ repA6.endValue = some 0 ∧
      getStartOfNextDayWithZone 0 0 < getEventStart evC6 0 ∧
      createRepeatRule 0 true evC6 repA6 = .error { msg := "startAfterEnd_label" }) ∧
    (vmA6.processing = false ∧
      buildEvent vmA6 = .error (.user { msg := "startAfterEnd_label" }) ∧
      saveAndSend vmA6 true true =
        { result := .err { msg := "startAfterEnd_label" }, trace := [], state := vmA6 }) :=
  ⟨⟨rfl, rfl, by decide,
    untilDate_boundary_before_start_rejected.1 0 true evC6 repA6 0 rfl rfl (by decide)⟩,
   ⟨rfl, by decide,
    untilDate_boundary_before_start_rejected.2 vmA6 true true _ rfl (by decide)⟩⟩

/-- A confidential own-event save with one external attendee that has no
pre-shared password (the C2 failing input). -/
def vmC2 : VMState :=
  { processing := false, startDate := 0, endDate := 0, startTime := none, endTime := none,
    allDay := true, zone := 0, repeatData := none,
    inviteModel := { bcc := [{ name := "", address := "ext@b.c", rtype := .external,
                               password := none, pwStrength := 0 }], confidential := true },
    updateModel := { bcc := [], confidential := true },
    cancelModel := { bcc := [], confidential := true },
    ownAttendee := some { name := "", address := "me@a.b" },
    guestStatuses := [("me@a.b", .accepted), ("ext@b.c", .added)],
    mailAddresses := ["me@a.b"], organizer := some { name := "", address := "me@a.b" },
    summary := "s", location := "", note := "",
    existingEvent := none, eventType := .own, accountExternal := false,
    selectedCalendarGroup := some 1 }

/-- C2 (code-bug evidence): on a confidential event with a passwordless
external attendee, `_checkPasswords` would reject — but `saveAndSend` never
invokes `_checkPasswords` (the method has no caller in the source), so the
save resolves successfully, the invite notification is sent and the event
is persisted, with no user-facing error. -/
theorem saveAndSend_password_check_missing :
    checkPasswordsRejects vmC2.attendees = true ∧
    (saveAndSend vmC2 true true).result = .ok true ∧
    (saveAndSend vmC2 true true).trace.head? = some (.sendInvite ["ext@b.c"]) ∧
    ((saveAndSend vmC2 true true).trace.any Action.isPersist) = true := by
  decide

/-- C10: `addAttendee` with a mail address already present in the current
attendee list is a no-op — the whole view-model state (attendee list, guest
status map, send models) is unchanged. -/
theorem addAttendee_idempotent (vm : VMState) (r : Recipient)
    (h : vm.attendees.any (fun a => a.address.address == r.address) = true) :
    vm.addAttendee r = vm := by
  unfold VMState.addAttendee
  rw [h]
  rfl

/-- The recipient attributes of an address already on `vmC2`'s guest list
(C10 witness). -/
def rW10 : Recipient :=
  { name := "x", address := "ext@b.c", rtype := .external, password := none, pwStrength := 3 }

/-- Witness for C10 at a concrete state. -/
theorem addAttendee_idempotent_witness :
    (vmC2.attendees.any (fun a => a.address.address == rW10.address) = true) ∧
    vmC2.addAttendee rW10 = vmC2 :=
  ⟨by decide, addAttendee_idempotent vmC2 rW10 (by decide)⟩

/-- Helper: replacing the first matching attendee's status keeps every
address. -/
theorem updateFirstStatus_map_address (l : List CalAttendee) (addr : String) (st : AttStatus) :
    (updateFirstStatus l addr st).map (·.address) = l.map (·.address) := by
  induction l with
  | nil => rfl
  | cons a rest ih =>
    unfold updateFirstStatus
    split
    · simp
    · simp [ih]

/-- Helper: an attendee whose address is not the target is kept untouched. -/
theorem updateFirstStatus_mem_of_ne (l : List CalAttendee) (addr : String) (st : AttStatus)
    (a : CalAttendee) (ha : a ∈ l) (hne : a.address.address ≠ addr) :
    a ∈ updateFirstStatus l addr st := by
  induction l with
  | nil => cases ha
  | cons b rest ih =>
    unfold updateFirstStatus
    rcases List.mem_cons.mp ha with rfl | ha'
    · split
      · rename_i hb
        exact absurd (by simpa using hb) hne
      · exact List.mem_cons_self _ _
    · split
      · exact List.mem_cons_of_mem _ ha'
      · exact List.mem_cons_of_mem _ (ih ha')

/-- Helper: when a matching attendee exists, the result contains an attendee
with the target address carrying the new status. -/
theorem updateFirstStatus_found (l : List CalAttendee) (addr : String) (st : AttStatus)
    (found : CalAttendee)
    (h : l.find? (fun a => a.address.address == addr) = some found) :
    ∃ a, a ∈ updateFirstStatus l addr st ∧ a.address.address = addr ∧ a.status = st := by
  induction l with
  | nil => simp [List.find?] at h
  | cons b rest ih =>
    unfold updateFirstStatus
    by_cases hb : (b.address.address == addr) = true
    · rw [if_pos hb]
      exact ⟨{ b with status := st }, List.mem_cons_self _ _, by simpa using hb, rfl⟩
    · rw [if_neg hb]
      have h' : rest.find? (fun a => a.address.address == addr) = some found := by
        rw [List.find?_cons_of_neg] at h
        · exact h
        · simpa using hb
      obtain ⟨a, ham, h1, h2⟩ := ih h'
      exact ⟨a, List.mem_cons_of_mem _ ham, h1, h2⟩

/-- C9: `replyToEventInvitation` never edits the caller's event: the clone
it dispatches and persists equals the input event with only the first
target-addressed attendee's status replaced by the decision and the
sequence incremented once; addresses and non-target attendees are
preserved, and the trace starts with exactly one response notification,
addressed to the organizer and sent via the target attendee's address. -/
theorem replyToEventInvitation_frame (event : CalendarEvent) (attendeeAddr : String)
    (decision : AttStatus) (cal : Bool) (found : CalAttendee)
    (h : event.attendees.find? (fun a => a.address.address == attendeeAddr) = some found) :
    ∃ out, replyToEventInvitation event attendeeAddr decision cal = some out ∧
      out.event = { event with
                    attendees := updateFirstStatus event.attendees attendeeAddr decision,
                    sequence := event.sequence + 1 } ∧
      out.event.attendees.map (·.address) = event.attendees.map (·.address) ∧
      (∀ a, a ∈ event.attendees → a.address.address ≠ attendeeAddr →
        a ∈ out.event.attendees) ∧
      (∃ a, a ∈ out.event.attendees ∧ a.address.address = attendeeAddr ∧
        a.status = decision) ∧
      out.trace.countP Action.isResponse = 1 ∧
      out.trace.head? = some (.sendResponse event.organizer attendeeAddr) := by
  have hfa : found.address.address = attendeeAddr := by
    have := List.find?_some h
    simpa using this
  unfold replyToEventInvitation
  rw [h]
  refine ⟨_, rfl, rfl, updateFirstStatus_map_address _ _ _,
    fun a ha hne => updateFirstStatus_mem_of_ne _ _ _ a ha hne,
    updateFirstStatus_found _ _ _ found h, ?_, ?_⟩
  · cases cal <;> cases hog : event.ownerGroup <;>
      simp [List.countP_cons, Action.isResponse, hog]
  · rw [hfa]
    rfl

/-- An invitation event with one target attendee (C9 witness input). -/
def evW9 : CalendarEvent :=
  { createCalendarEvent0 with
    organizer := some { name := "o", address := "org@x" },
    attendees := [{ address := { name := "m", address := "me@a.b" },
                    status := .needsAction }],
    ownerGroup := some 5, sequence := 2, hasId := true }

/-- Witness for C9 at a concrete input. -/
theorem replyToEventInvitation_frame_witness :
    (evW9.attendees.find? (fun a => a.address.address == "me@a.b") =
      some { address := { name := "m", address := "me@a.b" }, status := .needsAction }) ∧
    (∃ out, replyToEventInvitation evW9 "me@a.b" .accepted true = some out ∧
      out.event = { evW9 with
                    attendees := updateFirstStatus evW9.attendees "me@a.b" .accepted,
                    sequence := evW9.sequence + 1 } ∧
      out.event.attendees.map (·.address) = evW9.attendees.map (·.address) ∧
      (∀ a, a ∈ evW9.attendees → a.address.address ≠ "me@a.b" →
        a ∈ out.event.attendees) ∧
      (∃ a, a ∈ out.event.attendees ∧ a.address.address = "me@a.b" ∧
        a.status = .accepted) ∧
      out.trace.countP Action.isResponse = 1 ∧
      out.trace.head? = some (.sendResponse evW9.organizer "me@a.b")) :=
  ⟨by decide, replyToEventInvitation_frame evW9 "me@a.b" .accepted true
    { address := { name := "m", address := "me@a.b" }, status := .needsAction } (by decide)⟩

/-- Helper: a crash (failed `assertNotNull`) while building the event also
aborts the save with no side effects. -/
theorem saveAndSend_crash_aborts (vm : VMState) (a i : Bool)
    (hp : vm.processing = false) (hb : buildEvent vm = .error .crash) :
    saveAndSend vm a i = { result := .crash, trace := [], state := vm } := by
  unfold saveAndSend
  rw [hp, hb]
  rfl

/-- C4: every successful save of the user's own event emits its side effects
in exactly the order invite segment → cancellation segment → persistence
segment → update segment, and the update segment is non-empty only when the
user confirmed sending updates. -/
theorem saveAndSend_own_event_effect_order (vm : VMState) (a i : Bool)
    (hOwn : vm.eventType = .own)
    (hok : (saveAndSend vm a i).result = .ok true) :
    (saveAndSend vm a i).trace =
      inviteActions vm ++ cancelActions vm ++ persistActions vm ++ updateActions vm a ∧
    (updateActions vm a ≠ [] → a = true) := by
  have hview : vm.viewingOwnEvent = true := by
    simp [VMState.viewingOwnEvent, hOwn]
  refine ⟨?_, ?_⟩
  swap
  · intro hne
    cases a
    · exact absurd (by simp [updateActions]) hne
    · rfl
  cases hp : vm.processing
  case true =>
    rw [saveAndSend_busy_drops vm a i hp] at hok
    simp at hok
  case false =>
  cases hbe : buildEvent vm with
  | error e =>
    cases e with
    | user u =>
      rw [saveAndSend_userError_aborts vm a i u hp hbe] at hok
      simp at hok
    | crash =>
      rw [saveAndSend_crash_aborts vm a i hp hbe] at hok
      simp at hok
  | ok ev =>
    rcases hsis : sendInviteStage vm ev with ⟨ev1, stPair⟩
    rcases stPair with ⟨st1, iActs⟩
    by_cases hAsk : (!vm.existingAttendees.isEmpty || !vm.cancelModel.bcc.isEmpty) = true
    · cases ha : a
      · -- updates declined at the dialog level is impossible here: a = false
        -- means askForUpdates resolves false, send := true, save proceeds.
        cases hdce : doCreateEventActions vm ev1 with
        | error er =>
          rw [ha] at hok
          simp [saveAndSend, hp, hbe, hview, hAsk, hsis, hdce] at hok
        | ok pacts =>
          simp only [saveAndSend, hp, hbe, hview, hAsk, hsis, hdce,
            inviteActions, cancelActions, persistActions, updateActions]
          simp
      · cases hpc : passwordCheck vm i
        · rw [ha] at hok
          simp [saveAndSend, hp, hbe, hview, hAsk, hsis, hpc] at hok
        · cases hdce : doCreateEventActions vm ev1 with
          | error er =>
            rw [ha] at hok
            simp [saveAndSend, hp, hbe, hview, hAsk, hsis, hpc, hdce] at hok
          | ok pacts =>
            simp only [saveAndSend, hp, hbe, hview, hAsk, hsis, hpc, hdce,
              inviteActions, cancelActions, persistActions, updateActions]
            simp
    · have hAsk' : (!vm.existingAttendees.isEmpty || !vm.cancelModel.bcc.isEmpty) = false := by
        revert hAsk
        cases (!vm.existingAttendees.isEmpty || !vm.cancelModel.bcc.isEmpty) <;> simp
      have hEx : vm.existingAttendees.isEmpty = true := by
        revert hAsk'
        cases hx : vm.existingAttendees.isEmpty <;> simp
      have hCan : vm.cancelModel.bcc.isEmpty = true := by
        revert hAsk'
        cases hx : vm.cancelModel.bcc.isEmpty <;> simp [hEx]
      cases hpc : passwordCheck vm i
      · simp [saveAndSend, hp, hbe, hview, hAsk', hsis, hpc] at hok
      · cases hdce : doCreateEventActions vm ev1 with
        | error er =>
          simp [saveAndSend, hp, hbe, hview, hAsk', hsis, hpc, hdce] at hok
        | ok pacts =>
          simp only [saveAndSend, hp, hbe, hview, hAsk', hsis, hpc, hdce,
            inviteActions, cancelActions, persistActions, updateActions]
          simp [hEx, hCan]

/-- An existing own event with a remaining attendee (`old@x`), a removed
attendee (`bye@y`) and the user (`me@a.b`) (C4 witness input). -/
def evW4 : CalendarEvent :=
  { createCalendarEvent0 with
    attendees := [{ address := { name := "", address := "me@a.b" }, status := .accepted },
                  { address := { name := "", address := "old@x" }, status := .needsAction },
                  { address := { name := "", address := "bye@y" }, status := .accepted }],
    uid := some "u", sequence := 1, hasId := true, ownerGroup := some 7 }

/-- A save-time state for `evW4` after adding `new@z` and removing `bye@y`
(C4 witness input). -/
def vmW4 : VMState :=
  { processing := false, startDate := 0, endDate := 0, startTime := none, endTime := none,
    allDay := true, zone := 0, repeatData := none,
    inviteModel := { bcc := [{ name := "", address := "new@z", rtype := .internal,
                               password := none, pwStrength := 0 }], confidential := false },
    updateModel := { bcc := [{ name := "", address := "old@x", rtype := .internal,
                               password := none, pwStrength := 0 }], confidential := false },
    cancelModel := { bcc := [{ name := "", address := "bye@y", rtype := .internal,
                               password := none, pwStrength := 0 }], confidential := false },
    ownAttendee := some { name := "", address := "me@a.b" },
    guestStatuses := [("me@a.b", .accepted), ("old@x", .needsAction), ("new@z", .added)],
    mailAddresses := ["me@a.b"], organizer := some { name := "", address := "me@a.b" },
    summary := "s", location := "", note := "",
    existingEvent := some evW4, eventType := .own, accountExternal := false,
    selectedCalendarGroup := some 7 }

/-- Witness for C4 at a concrete state (all four segments non-trivial). -/
theorem saveAndSend_own_event_effect_order_witness :
    vmW4.eventType = .own ∧ (saveAndSend vmW4 true true).result = .ok true ∧
    ((saveAndSend vmW4 true true).trace =
        inviteActions vmW4 ++ cancelActions vmW4 ++ persistActions vmW4 ++
          updateActions vmW4 true ∧
      (updateActions vmW4 true ≠ [] → true = true)) :=
  ⟨rfl, by decide, saveAndSend_own_event_effect_order vmW4 true true rfl (by decide)⟩

/-! ### Lemmas about the recipient diff (C5) -/

theorem getStatus_cons (p : String × AttStatus) (rest : List (String × AttStatus))
    (k' : String) :
    getStatus (p :: rest) k' = if p.1 = k' then some p.2 else getStatus rest k' := by
  by_cases h : p.1 = k'
  · rw [if_pos h]
    unfold getStatus
    rw [List.find?_cons_of_pos _ (by simpa [beq_iff_eq] using h)]
    rfl
  · rw [if_neg h]
    unfold getStatus
    rw [List.find?_cons_of_neg _ (by simpa [beq_iff_eq] using h)]

theorem getStatus_setStatus (st : List (String × AttStatus)) (k : String) (v : AttStatus)
    (k' : String) :
    getStatus (setStatus st k v) k' = if k' = k then some v else getStatus st k' := by
  induction st with
  | nil =>
    show getStatus [(k, v)] k' = _
    rw [getStatus_cons]
    by_cases h : k' = k
    · rw [if_pos h.symm, if_pos h]
    · rw [if_neg (fun hh => h hh.symm), if_neg h]
  | cons p rest ih =>
    by_cases hp : p.1 = k
    · have hb : (p.1 == k) = true := by simpa [beq_iff_eq] using hp
      simp only [setStatus, hb, if_true]
      rw [getStatus_cons]
      by_cases h : k' = k
      · rw [if_pos h.symm, if_pos h]
      · rw [if_neg (fun hh => h hh.symm), if_neg h, getStatus_cons,
          if_neg (fun hh => h (hp ▸ hh).symm)]
  /- else branch -/
    · have hb : (p.1 == k) = false := by simpa [beq_iff_eq] using hp
      simp only [setStatus, hb, Bool.false_eq_true, if_false]
      rw [getStatus_cons]
      by_cases hpk : p.1 = k'
      · have hk : ¬ k' = k := fun hh => hp (hpk.trans hh)
        rw [if_pos hpk, if_neg hk, getStatus_cons, if_pos hpk]
      · rw [if_neg hpk, ih]
        by_cases h : k' = k
        · rw [if_pos h, if_pos h]
        · rw [if_neg h, if_neg h, getStatus_cons, if_neg hpk]

theorem getStatus_delStatus (st : List (String × AttStatus)) (k k' : String) :
    getStatus (delStatus st k) k' = if k' = k then none else getStatus st k' := by
  induction st with
  | nil =>
    by_cases h : k' = k <;> simp [delStatus, getStatus, List.find?, h]
  | cons p rest ih =>
    by_cases hp : p.1 = k
    · have hb : (p.1 != k) = false := by simp [bne, beq_iff_eq, hp]
      simp only [delStatus, hb, Bool.false_eq_true, if_false]
      rw [ih]
      by_cases h : k' = k
      · rw [if_pos h, if_pos h]
      · rw [if_neg h, if_neg h, getStatus_cons,
          if_neg (fun hh => h (hp ▸ hh).symm)]
    · have hb : (p.1 != k) = true := by simp [bne, beq_iff_eq, hp]
      simp only [delStatus, hb, if_true]
      rw [getStatus_cons]
      by_cases hpk : p.1 = k'
      · have hk : ¬ k' = k := fun hh => hp (hpk.trans hh)
        rw [if_pos hpk, if_neg hk, getStatus_cons, if_pos hpk]
      · rw [if_neg hpk, ih]
        by_cases h : k' = k
        · rw [if_pos h, if_pos h]
        · rw [if_neg h, if_neg h, getStatus_cons, if_neg hpk]

theorem contains_iff_mem (l : List String) (a : String) : l.contains a = true ↔ a ∈ l := by
  induction l with
  | nil => simp [List.contains]
  | cons b t ih => simp [List.contains] at ih ⊢

/-- Current attendee addresses: the own attendee in front of the invite- and
update-model recipients. -/
theorem attendeeAddrs_struct (vm : VMState) :
    attendeeAddrs vm =
      (match vm.ownAttendee with
       | some o => o.address :: (vm.inviteModel.bcc ++ vm.updateModel.bcc).map (fun r => r.address)
       | none => (vm.inviteModel.bcc ++ vm.updateModel.bcc).map (fun r => r.address)) := by
  have hcomp : ((fun (x : Guest) => x.address.address) ∘ guestOfRecipient vm.guestStatuses) =
      fun (r : Recipient) => r.address := by
    funext r
    rfl
  unfold attendeeAddrs VMState.attendees
  cases vm.ownAttendee <;>
    simp [List.map_map, hcomp]

theorem attendeeAddrs_none (vm : VMState) (h : vm.ownAttendee = none) :
    attendeeAddrs vm = (vm.inviteModel.bcc ++ vm.updateModel.bcc).map (fun r => r.address) := by
  rw [attendeeAddrs_struct, h]

theorem attendeeAddrs_some (vm : VMState) (o : EncMailAddress) (h : vm.ownAttendee = some o) :
    attendeeAddrs vm =
      o.address :: (vm.inviteModel.bcc ++ vm.updateModel.bcc).map (fun r => r.address) := by
  rw [attendeeAddrs_struct, h]

/-- Current attendee addresses split by their source: own attendee, invite
model, update model. -/
theorem mem_attendeeAddrs_iff (vm : VMState) (addr : String) :
    addr ∈ attendeeAddrs vm ↔
      ((∃ o, vm.ownAttendee = some o ∧ o.address = addr) ∨
       (∃ r ∈ vm.inviteModel.bcc, r.address = addr) ∨
       (∃ r ∈ vm.updateModel.bcc, r.address = addr)) := by
  rw [attendeeAddrs_struct]
  cases ho : vm.ownAttendee with
  | none =>
    simp only [ho, List.mem_map, List.mem_append]
    constructor
    · rintro ⟨r, hr | hr, rfl⟩
      · exact Or.inr (Or.inl ⟨r, hr, rfl⟩)
      · exact Or.inr (Or.inr ⟨r, hr, rfl⟩)
    · rintro (⟨o, hoo, rfl⟩ | ⟨r, hr, rfl⟩ | ⟨r, hr, rfl⟩)
      · cases hoo
      · exact ⟨r, Or.inl hr, rfl⟩
      · exact ⟨r, Or.inr hr, rfl⟩
  | some o =>
    simp only [ho, List.mem_cons, List.mem_map, List.mem_append]
    constructor
    · rintro (rfl | ⟨r, hr | hr, rfl⟩)
      · exact Or.inl ⟨o, rfl, rfl⟩
      · exact Or.inr (Or.inl ⟨r, hr, rfl⟩)
      · exact Or.inr (Or.inr ⟨r, hr, rfl⟩)
    · rintro (⟨o', hoo, rfl⟩ | ⟨r, hr, rfl⟩ | ⟨r, hr, rfl⟩)
      · cases hoo
        exact Or.inl rfl
      · exact Or.inr ⟨r, Or.inl hr, rfl⟩
      · exact Or.inr ⟨r, Or.inr hr, rfl⟩

/-- A guest's status is `ADDED` exactly when the status map holds `ADDED`
for its address (the lookup defaults `ACCEPTED`/`NEEDS_ACTION` are never
`ADDED`). -/
theorem attendee_status_added_iff (vm : VMState) (g : Guest) (hg : g ∈ vm.attendees) :
    (g.status = AttStatus.added) ↔
      getStatus vm.guestStatuses g.address.address = some AttStatus.added := by
  revert hg
  unfold VMState.attendees
  cases ho : vm.ownAttendee with
  | none =>
    intro hg
    rcases List.mem_map.mp hg with ⟨r, _, rfl⟩
    cases hs : getStatus vm.guestStatuses r.address <;>
      simp [guestOfRecipient, hs]
  | some o =>
    intro hg
    rcases List.mem_cons.mp hg with rfl | hg'
    · cases hs : getStatus vm.guestStatuses o.address <;> simp [hs]
    · rcases List.mem_map.mp hg' with ⟨r, _, rfl⟩
      cases hs : getStatus vm.guestStatuses r.address <;>
        simp [guestOfRecipient, hs]

theorem mem_invited_iff (vm : VMState) (addr : String) :
    addr ∈ invitedAddresses vm ↔ ∃ r ∈ vm.inviteModel.bcc, r.address = addr := by
  unfold invitedAddresses
  simp [List.mem_map]

theorem mem_updated_iff (vm : VMState) (ev0 : CalendarEvent)
    (hEv : vm.existingEvent = some ev0) (hType : vm.eventType = .own) (addr : String) :
    addr ∈ updatedAddresses vm ↔
      (addr ∈ attendeeAddrs vm ∧ addr ∉ vm.mailAddresses ∧
        ∃ a ∈ ev0.attendees, a.address.address = addr) := by
  have hview : vm.viewingOwnEvent = true := by simp [VMState.viewingOwnEvent, hType]
  unfold updatedAddresses VMState.existingAttendees
  rw [hEv, hview]
  simp only [if_true]
  constructor
  · intro h
    rcases List.mem_map.mp h with ⟨g, hgf, rfl⟩
    rcases List.mem_filter.mp hgf with ⟨hg, hcond⟩
    rw [Bool.and_eq_true] at hcond
    obtain ⟨hc1, hc2⟩ := hcond
    refine ⟨List.mem_map.mpr ⟨g, hg, rfl⟩, ?_, ?_⟩
    · intro hmem
      rw [(contains_iff_mem _ _).mpr hmem] at hc1
      simp at hc1
    · rcases List.any_eq_true.mp hc2 with ⟨a, ha, hba⟩
      exact ⟨a, ha, by simpa [beq_iff_eq] using hba⟩
  · rintro ⟨h1, h2, a, ha, haddr⟩
    rcases List.mem_map.mp h1 with ⟨g, hg, rfl⟩
    refine List.mem_map.mpr ⟨g, List.mem_filter.mpr ⟨hg, ?_⟩, rfl⟩
    rw [Bool.and_eq_true]
    refine ⟨?_, List.any_eq_true.mpr ⟨a, ha, by simpa [beq_iff_eq] using haddr⟩⟩
    have hcc : vm.mailAddresses.contains g.address.address = false := by
      cases hc : vm.mailAddresses.contains g.address.address
      · rfl
      · exact absurd ((contains_iff_mem _ _).mp hc) h2
    rw [hcc]
    rfl

theorem mem_cancelled_iff (vm : VMState) (addr : String) :
    addr ∈ cancelledAddresses vm ↔ ∃ r ∈ vm.cancelModel.bcc, r.address = addr := by
  unfold cancelledAddresses
  simp [List.mem_map]

theorem invited_subset_attendees (vm : VMState) (addr : String)
    (h : addr ∈ invitedAddresses vm) : addr ∈ attendeeAddrs vm := by
  rcases (mem_invited_iff vm addr).mp h with ⟨r, hr, rfl⟩
  exact (mem_attendeeAddrs_iff vm _).mpr (Or.inr (Or.inl ⟨r, hr, rfl⟩))

theorem updated_subset_attendees (vm : VMState) (ev0 : CalendarEvent)
    (hEv : vm.existingEvent = some ev0) (hType : vm.eventType = .own) (addr : String)
    (h : addr ∈ updatedAddresses vm) : addr ∈ attendeeAddrs vm :=
  ((mem_updated_iff vm ev0 hEv hType addr).mp h).1

/-- Addresses of the original event's attendees. -/
def origAddrs (orig : List CalAttendee) : List String := orig.map (fun a => a.address.address)

/-- Cleanliness of a guest-op history relative to the set of already-removed
addresses: no removed address is later re-added, and no own address is ever
removed. -/
def CleanFrom (mails : List String) : List String → List GuestOp → Prop
  | _, [] => True
  | removed, GuestOp.add addr _ _ _ :: rest => addr ∉ removed ∧ CleanFrom mails removed rest
  | removed, GuestOp.remove addr :: rest =>
    addr ∉ mails ∧ CleanFrom mails (addr :: removed) rest

/-- The invariant of the recipient diff, established by construction from
the user's own existing event and preserved by clean guest-list edits. -/
structure DiffInv (orig : List CalAttendee) (mails removed : List String) (vm : VMState) :
    Prop where
  hEv : ∃ ev0, vm.existingEvent = some ev0 ∧ ev0.attendees = orig
  hType : vm.eventType = EventType.own
  hMails : vm.mailAddresses = mails
  hMailsNe : mails ≠ []
  hInvBcc : ∀ r ∈ vm.inviteModel.bcc,
    getStatus vm.guestStatuses r.address =
      some (if r.address ∈ mails then AttStatus.accepted else AttStatus.added) ∧
    (r.address ∉ mails → r.address ∉ origAddrs orig)
  hUpdBcc : ∀ r ∈ vm.updateModel.bcc, r.address ∈ origAddrs orig ∧ r.address ∉ mails ∧
    getStatus vm.guestStatuses r.address ≠ some AttStatus.added
  hOwnAtt : ∀ o, vm.ownAttendee = some o → o.address ∈ mails ∧
    getStatus vm.guestStatuses o.address ≠ some AttStatus.added
  hCanBcc : ∀ r ∈ vm.cancelModel.bcc, r.address ∈ origAddrs orig ∧ r.address ∉ mails ∧
    r.address ∉ attendeeAddrs vm ∧ r.address ∈ removed
  hCover : ∀ adr ∈ origAddrs orig, adr ∉ mails →
    adr ∈ attendeeAddrs vm ∨ adr ∈ vm.cancelModel.bcc.map (fun r => r.address)
  hNodup : (attendeeAddrs vm).Nodup

/-- The update-model recipients produced by construction: exactly the
non-own original attendees, in order. -/
theorem initFold_bcc (mails : List String) (res : Resolver) (atts : List CalAttendee) :
    ∀ acc, (atts.foldl (initStep mails res) acc).2.1.bcc =
      acc.2.1.bcc ++ (atts.filter (fun a => !(mails.contains a.address.address))).map
        (fun a => res.recipientOf a.address) := by
  induction atts with
  | nil => intro acc; simp
  | cons att rest ih =>
    intro acc
    rcases acc with ⟨own, um, st⟩
    by_cases h : mails.contains att.address.address = true
    · have hstep : initStep mails res (own, um, st) att =
          (some att.address, um, setStatus st att.address.address att.status) := by
        unfold initStep
        rw [if_pos h]
      have hf : (!(mails.contains att.address.address)) = false := by rw [h]; rfl
      simp only [List.foldl_cons, List.filter_cons, hf, Bool.false_eq_true, if_false]
      rw [ih, hstep]
    · have hstep : initStep mails res (own, um, st) att =
          (own, { um with bcc := um.bcc ++ [res.recipientOf att.address] },
           setStatus st att.address.address att.status) := by
        unfold initStep
        rw [if_neg h]
      have h' : mails.contains att.address.address = false := by
        cases hc : mails.contains att.address.address
        · rfl
        · exact absurd hc h
      have hf : (!(mails.contains att.address.address)) = true := by rw [h']; rfl
      simp only [List.foldl_cons, List.filter_cons, hf, if_true]
      rw [ih, hstep, List.map_cons]
      show (um.bcc ++ [res.recipientOf att.address]) ++ _ = _
      rw [List.append_assoc]
      rfl

/-- Any own attendee produced by construction is an own original attendee. -/
theorem initFold_own (mails : List String) (res : Resolver) (atts : List CalAttendee) :
    ∀ acc o, (atts.foldl (initStep mails res) acc).1 = some o →
      (∃ a ∈ atts, a.address = o ∧ a.address.address ∈ mails) ∨ acc.1 = some o := by
  induction atts with
  | nil => intro acc o h; exact Or.inr h
  | cons att rest ih =>
    intro acc o h
    rcases acc with ⟨own, um, st⟩
    rcases ih (initStep mails res (own, um, st) att) o h with hr | hacc
    · rcases hr with ⟨a, ha, h1, h2⟩
      exact Or.inl ⟨a, List.mem_cons_of_mem _ ha, h1, h2⟩
    · by_cases hc : mails.contains att.address.address = true
      · have hstep : initStep mails res (own, um, st) att =
            (some att.address, um, setStatus st att.address.address att.status) := by
          unfold initStep
          rw [if_pos hc]
        rw [hstep] at hacc
        cases hacc
        exact Or.inl ⟨att, List.mem_cons_self _ _, rfl, (contains_iff_mem _ _).mp hc⟩
      · have hstep : initStep mails res (own, um, st) att =
            (own, { um with bcc := um.bcc ++ [res.recipientOf att.address] },
             setStatus st att.address.address att.status) := by
          unfold initStep
          rw [if_neg hc]
        rw [hstep] at hacc
        exact Or.inr hacc

/-- Any status recorded by construction is the stored status of an original
attendee. -/
theorem initFold_status (mails : List String) (res : Resolver) (atts : List CalAttendee) :
    ∀ acc k v, getStatus (atts.foldl (initStep mails res) acc).2.2 k = some v →
      (∃ a ∈ atts, a.address.address = k ∧ a.status = v) ∨ getStatus acc.2.2 k = some v := by
  induction atts with
  | nil => intro acc k v h; exact Or.inr h
  | cons att rest ih =>
    intro acc k v h
    rcases acc with ⟨own, um, st⟩
    rcases ih (initStep mails res (own, um, st) att) k v h with hr | hacc
    · rcases hr with ⟨a, ha, h1, h2⟩
      exact Or.inl ⟨a, List.mem_cons_of_mem _ ha, h1, h2⟩
    · have hst : (initStep mails res (own, um, st) att).2.2 =
          setStatus st att.address.address att.status := by
        unfold initStep
        split <;> rfl
      rw [hst, getStatus_setStatus] at hacc
      by_cases hk : k = att.address.address
      · rw [if_pos hk] at hacc
        cases hacc
        exact Or.inl ⟨att, List.mem_cons_self _ _, hk.symm, rfl⟩
      · rw [if_neg hk] at hacc
        exact Or.inr hacc

/-- The presence guard of `addAttendee` decides membership in the current
attendee addresses. -/
theorem attendees_any_addr (vm : VMState) (addr : String) :
    (vm.attendees.any (fun a => a.address.address == addr)) = true ↔
      addr ∈ attendeeAddrs vm := by
  unfold attendeeAddrs
  rw [List.any_eq_true]
  constructor
  · rintro ⟨g, hg, hb⟩
    exact List.mem_map.mpr ⟨g, hg, by simpa [beq_iff_eq] using hb⟩
  · intro h
    rcases List.mem_map.mp h with ⟨g, hg, rfl⟩
    exact ⟨g, hg, by simp⟩

/-- Erasing an address from a recipient list with distinct addresses leaves
no recipient with that address. -/
theorem eraseP_addr_not_mem (l : List Recipient) (addr : String)
    (hnd : (l.map (fun r => r.address)).Nodup) :
    ∀ x ∈ l.eraseP (fun r => r.address == addr), x.address ≠ addr := by
  induction l with
  | nil => intro x hx; cases hx
  | cons r t ih =>
    intro x hx
    rcases List.nodup_cons.mp hnd with ⟨hrnot, hndt⟩
    by_cases hr : (r.address == addr) = true
    · simp only [List.eraseP_cons, hr, cond_true] at hx
      have hra : r.address = addr := by simpa [beq_iff_eq] using hr
      intro hxa
      exact hrnot (List.mem_map.mpr ⟨x, hx, (hxa.trans hra.symm)⟩)
    · have hr' : (r.address == addr) = false := by
        cases hc : (r.address == addr)
        · rfl
        · exact absurd hc hr
      simp only [List.eraseP_cons, hr', cond_false] at hx
      rcases List.mem_cons.mp hx with rfl | hx'
      · simpa [beq_iff_eq] using hr
      · exact ih hndt x hx'

/-- A recipient with a different address survives the erasure. -/
theorem mem_eraseP_of_ne (l : List Recipient) (addr : String) (x : Recipient)
    (hx : x ∈ l) (hne : x.address ≠ addr) :
    x ∈ l.eraseP (fun r => r.address == addr) := by
  induction l with
  | nil => cases hx
  | cons r t ih =>
    by_cases hr : (r.address == addr) = true
    · simp only [List.eraseP_cons, hr, cond_true]
      rcases List.mem_cons.mp hx with rfl | hx'
      · exact absurd (by simpa [beq_iff_eq] using hr) hne
      · exact hx'
    · have hr' : (r.address == addr) = false := by
        cases hc : (r.address == addr)
        · rfl
        · exact absurd hc hr
      simp only [List.eraseP_cons, hr', cond_false]
      rcases List.mem_cons.mp hx with rfl | hx'
      · exact List.mem_cons_self _ _
      · exact List.mem_cons_of_mem _ (ih hx')

theorem removeFromModel_fst (m : SendModel) (st : List (String × AttStatus)) (addr : String) :
    (removeFromModel m st addr).1 =
      { m with bcc := m.bcc.eraseP (fun r => r.address == addr) } := by
  unfold removeFromModel
  by_cases h : (m.bcc.any (fun r => r.address == addr)) = true
  · rw [if_pos h]
  · rw [if_neg h]
    have : m.bcc.eraseP (fun r => r.address == addr) = m.bcc := by
      apply List.eraseP_of_forall_not
      intro a ha
      by_contra hc
      exact h (List.any_eq_true.mpr ⟨a, ha, by simpa using hc⟩)
    rw [this]

theorem removeFromModel_status_ne (m : SendModel) (st : List (String × AttStatus))
    (addr k : String) (hk : k ≠ addr) :
    getStatus (removeFromModel m st addr).2 k = getStatus st k := by
  unfold removeFromModel
  by_cases h : (m.bcc.any (fun r => r.address == addr)) = true
  · rw [if_pos h]
    show getStatus (delStatus st addr) k = _
    rw [getStatus_delStatus, if_neg hk]
  · rw [if_neg h]

theorem removeAttendee_frame (vm : VMState) (addr : String) :
    (vm.removeAttendee addr).existingEvent = vm.existingEvent ∧
    (vm.removeAttendee addr).eventType = vm.eventType ∧
    (vm.removeAttendee addr).mailAddresses = vm.mailAddresses ∧
    (vm.removeAttendee addr).ownAttendee = vm.ownAttendee := by
  simp only [VMState.removeAttendee]
  split <;> exact ⟨rfl, rfl, rfl, rfl⟩

theorem removeAttendee_invite (vm : VMState) (addr : String) :
    (vm.removeAttendee addr).inviteModel =
      { vm.inviteModel with bcc := vm.inviteModel.bcc.eraseP (fun r => r.address == addr) } := by
  simp only [VMState.removeAttendee]
  split <;> simp only [removeFromModel_fst]

theorem removeAttendee_update (vm : VMState) (addr : String) :
    (vm.removeAttendee addr).updateModel =
      { vm.updateModel with bcc := vm.updateModel.bcc.eraseP (fun r => r.address == addr) } := by
  simp only [VMState.removeAttendee]
  split <;> simp only [removeFromModel_fst]

theorem removeAttendee_cancel (vm : VMState) (addr : String) :
    (vm.removeAttendee addr).cancelModel.bcc =
      vm.cancelModel.bcc.eraseP (fun r => r.address == addr) ++
        (match vm.existingEvent.bind
            (fun ev => ev.attendees.find? (fun a => a.address.address == addr)) with
         | some ea => [{ name := ea.address.name, address := ea.address.address,
                         rtype := RType.unknown, password := none, pwStrength := 0 }]
         | none => []) := by
  simp only [VMState.removeAttendee]
  split
  · simp only [removeFromModel_fst]
  · simp only [removeFromModel_fst, List.append_nil]

theorem removeAttendee_status_ne (vm : VMState) (addr k : String) (hk : k ≠ addr) :
    getStatus (vm.removeAttendee addr).guestStatuses k = getStatus vm.guestStatuses k := by
  simp only [VMState.removeAttendee]
  split <;>
    simp only [removeFromModel_status_ne _ _ _ _ hk]

theorem attendeeAddrs_addAux_perm (vm : VMState) (r : Recipient) :
    (attendeeAddrs (addAux vm r)).Perm (r.address :: attendeeAddrs vm) := by
  have hupd : (addAux vm r).updateModel = vm.updateModel := rfl
  have hinv : (addAux vm r).inviteModel.bcc = vm.inviteModel.bcc ++ [r] := rfl
  have hmid : (vm.inviteModel.bcc ++ r :: vm.updateModel.bcc).Perm
      (r :: (vm.inviteModel.bcc ++ vm.updateModel.bcc)) := List.perm_middle
  cases ho : vm.ownAttendee with
  | none =>
    rw [attendeeAddrs_none _ (show (addAux vm r).ownAttendee = none from ho),
        attendeeAddrs_none vm ho, hinv, hupd, List.append_assoc]
    exact hmid.map (fun x => x.address)
  | some o =>
    rw [attendeeAddrs_some _ o (show (addAux vm r).ownAttendee = some o from ho),
        attendeeAddrs_some vm o ho, hinv, hupd, List.append_assoc]
    have hmap := hmid.map (fun (x : Recipient) => x.address)
    rw [List.map_cons] at hmap
    exact (hmap.cons o.address).trans (List.Perm.swap r.address o.address _)

theorem mem_attendeeAddrs_addAux (vm : VMState) (r : Recipient) (adr : String) :
    adr ∈ attendeeAddrs (addAux vm r) ↔ adr = r.address ∨ adr ∈ attendeeAddrs vm := by
  rw [(attendeeAddrs_addAux_perm vm r).mem_iff]
  simp

/-- The insertion step of `addAttendee` preserves the recipient-diff
invariant when the address is fresh (not currently an attendee) and was not
removed before. -/
theorem diffInv_addAux (orig : List CalAttendee) (mails removed : List String) (vm : VMState)
    (r : Recipient) (inv : DiffInv orig mails removed vm)
    (hnr : r.address ∉ removed)
    (hpres : r.address ∉ attendeeAddrs vm) :
    DiffInv orig mails removed (addAux vm r) := by
  obtain ⟨⟨ev0, hEv, hEvAtts⟩, hType, hMails, hMailsNe, hInvBcc, hUpdBcc, hOwnAtt, hCanBcc,
    hCover, hNodup⟩ := inv
  have hstat' : ∀ k, getStatus (addAux vm r).guestStatuses k =
      if k = r.address then
        some (if vm.mailAddresses.contains r.address then AttStatus.accepted
              else AttStatus.added)
      else getStatus vm.guestStatuses k :=
    fun k => getStatus_setStatus vm.guestStatuses r.address _ k
  have hmem := fun adr => mem_attendeeAddrs_addAux vm r adr
  have hRnotOrig : r.address ∉ mails → r.address ∉ origAddrs orig := by
    intro hrm hro
    rcases hCover r.address hro hrm with hin | hcan
    · exact hpres hin
    · rcases List.mem_map.mp hcan with ⟨y, hy, hya⟩
      obtain ⟨_, _, _, hyrem⟩ := hCanBcc y hy
      exact hnr (hya ▸ hyrem)
  have hcontains : vm.mailAddresses.contains r.address = true ↔ r.address ∈ mails := by
    rw [hMails]
    exact contains_iff_mem mails _
  refine ⟨⟨ev0, hEv, hEvAtts⟩, hType, hMails, hMailsNe, ?_, ?_, ?_, ?_, ?_, ?_⟩
  · intro r' hr'
    have hr'' : r' ∈ vm.inviteModel.bcc ++ [r] := hr'
    rcases List.mem_append.mp hr'' with hold | hnew
    · have hne : r'.address ≠ r.address := by
        intro he
        apply hpres
        rw [← he]
        exact (mem_attendeeAddrs_iff vm r'.address).mpr (Or.inr (Or.inl ⟨r', hold, rfl⟩))
      obtain ⟨h1, h2⟩ := hInvBcc r' hold
      rw [hstat', if_neg hne]
      exact ⟨h1, h2⟩
    · have : r' = r := List.mem_singleton.mp hnew
      subst this
      rw [hstat', if_pos rfl]
      refine ⟨?_, hRnotOrig⟩
      by_cases hm : r'.address ∈ mails
      · rw [if_pos (hcontains.mpr hm), if_pos hm]
      · rw [if_neg (fun hc => hm (hcontains.mp hc)), if_neg hm]
  · intro r' hr'
    have hr'' : r' ∈ vm.updateModel.bcc := hr'
    obtain ⟨h1, h2, h3⟩ := hUpdBcc r' hr''
    have hne : r'.address ≠ r.address := by
      intro he
      apply hpres
      rw [← he]
      exact (mem_attendeeAddrs_iff vm r'.address).mpr (Or.inr (Or.inr ⟨r', hr'', rfl⟩))
    rw [hstat', if_neg hne]
    exact ⟨h1, h2, h3⟩
  · intro o ho
    have ho' : vm.ownAttendee = some o := ho
    obtain ⟨h1, h2⟩ := hOwnAtt o ho'
    have hne : o.address ≠ r.address := by
      intro he
      apply hpres
      rw [← he]
      exact (mem_attendeeAddrs_iff vm o.address).mpr (Or.inl ⟨o, ho', rfl⟩)
    rw [hstat', if_neg hne]
    exact ⟨h1, h2⟩
  · intro y hy
    have hy' : y ∈ vm.cancelModel.bcc := hy
    obtain ⟨h1, h2, h3, h4⟩ := hCanBcc y hy'
    refine ⟨h1, h2, ?_, h4⟩
    intro hin
    rcases (hmem _).mp hin with heq | hold
    · exact hnr (heq ▸ h4)
    · exact h3 hold
  · intro adr ha hm
    rcases hCover adr ha hm with hin | hcan
    · exact Or.inl ((hmem adr).mpr (Or.inr hin))
    · exact Or.inr hcan
  · exact (attendeeAddrs_addAux_perm vm r).nodup_iff.mpr
      (List.nodup_cons.mpr ⟨hpres, hNodup⟩)

theorem headD_mem (l : List String) (h : l ≠ []) : l.headD "" ∈ l := by
  cases l with
  | nil => exact absurd rfl h
  | cons a t => exact List.mem_cons_self _ _

theorem selectGoing_none_own (vm : VMState) (going : AttStatus)
    (hown : vm.ownAttendee = none) (htype : vm.eventType = EventType.own) :
    vm.selectGoing going = { vm with
      ownAttendee := some { name := "", address := vm.mailAddresses.headD "" },
      guestStatuses := setStatus vm.guestStatuses (vm.mailAddresses.headD "") going } := by
  have hcan : vm.canModifyOwnAttendance = true := by
    simp [VMState.canModifyOwnAttendance, VMState.viewingOwnEvent, htype]
  simp [VMState.selectGoing, hcan, hown, htype]

/-- A fresh non-own address cannot be an original attendee address: the
original address would otherwise still be an attendee or sit in the cancel
model (and hence be removed). -/
theorem fresh_addr_not_orig (orig : List CalAttendee) (mails removed : List String)
    (vm : VMState) (adr : String) (inv : DiffInv orig mails removed vm)
    (hnr : adr ∉ removed) (hpres : adr ∉ attendeeAddrs vm) (hm : adr ∉ mails) :
    adr ∉ origAddrs orig := by
  intro hro
  rcases inv.hCover adr hro hm with hin | hcan
  · exact hpres hin
  · rcases List.mem_map.mp hcan with ⟨y, hy, hya⟩
    obtain ⟨_, _, _, hyrem⟩ := inv.hCanBcc y hy
    exact hnr (hya ▸ hyrem)

/-- `addAttendee` preserves the recipient-diff invariant when the address
was not removed before. -/
theorem diffInv_add (orig : List CalAttendee) (mails removed : List String) (vm : VMState)
    (r : Recipient) (inv : DiffInv orig mails removed vm) (hnr : r.address ∉ removed) :
    DiffInv orig mails removed (vm.addAttendee r) := by
  by_cases hpres : (vm.attendees.any (fun a => a.address.address == r.address)) = true
  · have hnoop : vm.addAttendee r = vm := by
      unfold VMState.addAttendee
      rw [hpres]
      rfl
    rw [hnoop]
    exact inv
  · have hpres' : r.address ∉ attendeeAddrs vm := fun h =>
      hpres ((attendees_any_addr vm r.address).mpr h)
    have hinv1 := diffInv_addAux orig mails removed vm r inv hnr hpres'
    have hdef : vm.addAttendee r =
        (if ((addAux vm r).attendees.length == 1 && (addAux vm r).findOwnAttendee.isNone) = true
         then (addAux vm r).selectGoing AttStatus.accepted else addAux vm r) := by
      unfold VMState.addAttendee
      rw [if_neg hpres]
    rw [hdef]
    by_cases hsel :
      ((addAux vm r).attendees.length == 1 && (addAux vm r).findOwnAttendee.isNone) = true
    case neg =>
      rw [if_neg hsel]
      exact hinv1
    case pos =>
    rw [if_pos hsel]
    rw [Bool.and_eq_true] at hsel
    obtain ⟨hlen, hfind⟩ := hsel
    have hlen' : (addAux vm r).attendees.length = 1 := by simpa [beq_iff_eq] using hlen
    have haddlen : (attendeeAddrs (addAux vm r)).length = 1 := by
      unfold attendeeAddrs
      rw [List.length_map]
      exact hlen'
    have hlensum : (attendeeAddrs (addAux vm r)).length = 1 + (attendeeAddrs vm).length := by
      rw [(attendeeAddrs_addAux_perm vm r).length_eq, List.length_cons]
      omega
    have hvmempty : attendeeAddrs vm = [] := by
      have h0 : (attendeeAddrs vm).length = 0 := by omega
      exact List.length_eq_zero.mp h0
    have hownnone : vm.ownAttendee = none := by
      cases ho : vm.ownAttendee with
      | none => rfl
      | some o =>
        have hsm := attendeeAddrs_some vm o ho
        rw [hvmempty] at hsm
        cases hsm
    have hmailsfalse : vm.mailAddresses.contains r.address = false := by
      have hfind' : (addAux vm r).findOwnAttendee = none := by
        cases hf : (addAux vm r).findOwnAttendee
        · rfl
        · rw [hf] at hfind
          cases hfind
      unfold VMState.findOwnAttendee at hfind'
      have hforall := List.find?_eq_none.mp hfind'
      have hrin : r.address ∈ attendeeAddrs (addAux vm r) :=
        (mem_attendeeAddrs_addAux vm r r.address).mpr (Or.inl rfl)
      rcases List.mem_map.mp hrin with ⟨g, hg, hga⟩
      have hno := hforall g hg
      cases hc : vm.mailAddresses.contains r.address
      · rfl
      · exact absurd (by rw [hga]; exact hc) hno
    have hrnotmails : r.address ∉ mails := by
      intro hmm
      rw [(contains_iff_mem _ _).mpr (inv.hMails ▸ hmm)] at hmailsfalse
      cases hmailsfalse
    have hmodelsnil : vm.inviteModel.bcc = [] ∧ vm.updateModel.bcc = [] := by
      have hnone := attendeeAddrs_none vm hownnone
      rw [hvmempty] at hnone
      have happ : vm.inviteModel.bcc ++ vm.updateModel.bcc = [] :=
        List.map_eq_nil_iff.mp hnone.symm
      exact List.append_eq_nil.mp happ
    obtain ⟨hinvnil, hupdnil⟩ := hmodelsnil
    have hsg := selectGoing_none_own (addAux vm r) AttStatus.accepted
      (show (addAux vm r).ownAttendee = none from hownnone)
      (show (addAux vm r).eventType = EventType.own from inv.hType)
    rw [hsg]
    have hm0 : (addAux vm r).mailAddresses.headD "" ∈ mails := by
      have : (addAux vm r).mailAddresses = mails := inv.hMails
      rw [this]
      exact headD_mem mails inv.hMailsNe
    have hm0ne : (addAux vm r).mailAddresses.headD "" ≠ r.address := by
      intro he
      exact hrnotmails (he ▸ hm0)
    -- the resulting state
    set m0 := (addAux vm r).mailAddresses.headD "" with hm0def
    have hstat2 : ∀ k, getStatus (setStatus (addAux vm r).guestStatuses m0
        AttStatus.accepted) k =
        if k = m0 then some AttStatus.accepted else getStatus (addAux vm r).guestStatuses k :=
      fun k => getStatus_setStatus _ _ _ k
    have hstat1 : ∀ k, getStatus (addAux vm r).guestStatuses k =
        if k = r.address then
          some (if vm.mailAddresses.contains r.address then AttStatus.accepted
                else AttStatus.added)
        else getStatus vm.guestStatuses k :=
      fun k => getStatus_setStatus vm.guestStatuses r.address _ k
    obtain ⟨ev0, hEv, hEvAtts⟩ := inv.hEv
    -- attendee addresses of the final state
    have haddr2 : attendeeAddrs { addAux vm r with
        ownAttendee := some { name := "", address := m0 },
        guestStatuses := setStatus (addAux vm r).guestStatuses m0 AttStatus.accepted } =
        m0 :: ((vm.inviteModel.bcc ++ [r]) ++ vm.updateModel.bcc).map (fun x => x.address) := by
      rw [attendeeAddrs_some _ { name := "", address := m0 } rfl]
      rfl
    refine ⟨⟨ev0, hEv, hEvAtts⟩, inv.hType, inv.hMails, inv.hMailsNe, ?_, ?_, ?_, ?_, ?_, ?_⟩
    · intro r' hr'
      have hr'' : r' ∈ vm.inviteModel.bcc ++ [r] := hr'
      rw [hinvnil] at hr''
      have : r' = r := List.mem_singleton.mp hr''
      subst this
      rw [hstat2, if_neg (fun he => hm0ne he.symm), hstat1, if_pos rfl, hmailsfalse]
      refine ⟨?_, fun _ => fresh_addr_not_orig orig mails removed vm r'.address inv hnr
        hpres' hrnotmails⟩
      rw [if_neg hrnotmails]
      rfl
    · intro r' hr'
      have hr'' : r' ∈ vm.updateModel.bcc := hr'
      rw [hupdnil] at hr''
      cases hr''
    · intro o ho
      have ho' : some { name := "", address := m0 } = some o := ho
      cases ho'
      refine ⟨hm0, ?_⟩
      rw [hstat2, if_pos rfl]
      intro hcontra
      cases hcontra
    · intro y hy
      have hy' : y ∈ vm.cancelModel.bcc := hy
      obtain ⟨h1, h2, _, h4⟩ := inv.hCanBcc y hy'
      refine ⟨h1, h2, ?_, h4⟩
      rw [haddr2, hinvnil, hupdnil]
      intro hin
      rcases List.mem_cons.mp hin with he | hin'
      · exact h2 (he ▸ hm0)
      · have : y.address = r.address := by simpa using hin'
        exact hnr (this ▸ h4)
    · intro adr ha hm
      rcases inv.hCover adr ha hm with hin | hcan
      · rw [hvmempty] at hin
        cases hin
      · exact Or.inr hcan
    · rw [haddr2, hinvnil, hupdnil]
      apply List.nodup_cons.mpr
      constructor
      · intro hin
        have : m0 = r.address := by simpa using hin
        exact hm0ne this
      · simp

/-- `removeAttendee` preserves the recipient-diff invariant (with the
address recorded as removed) when the address is not one of the user's
own. -/
theorem diffInv_remove (orig : List CalAttendee) (mails removed : List String) (vm : VMState)
    (addr : String) (inv : DiffInv orig mails removed vm) (hnm : addr ∉ mails) :
    DiffInv orig mails (addr :: removed) (vm.removeAttendee addr) := by
  obtain ⟨⟨ev0, hEv, hEvAtts⟩, hType, hMails, hMailsNe, hInvBcc, hUpdBcc, hOwnAtt, hCanBcc,
    hCover, hNodup⟩ := inv
  obtain ⟨hFev, hFtype, hFmail, hFown⟩ := removeAttendee_frame vm addr
  have hInv := removeAttendee_invite vm addr
  have hUpd := removeAttendee_update vm addr
  have hCan := removeAttendee_cancel vm addr
  have hbccNodup : ((vm.inviteModel.bcc ++ vm.updateModel.bcc).map (fun x => x.address)).Nodup := by
    cases ho : vm.ownAttendee with
    | none =>
      rw [attendeeAddrs_none vm ho] at hNodup
      exact hNodup
    | some o =>
      rw [attendeeAddrs_some vm o ho] at hNodup
      exact (List.nodup_cons.mp hNodup).2
  have hbccNodup' := hbccNodup
  rw [List.map_append] at hbccNodup'
  have hinvNodup : (vm.inviteModel.bcc.map (fun x => x.address)).Nodup :=
    hbccNodup'.of_append_left
  have hupdNodup : (vm.updateModel.bcc.map (fun x => x.address)).Nodup :=
    hbccNodup'.of_append_right
  have hinvSurv := eraseP_addr_not_mem vm.inviteModel.bcc addr hinvNodup
  have hupdSurv := eraseP_addr_not_mem vm.updateModel.bcc addr hupdNodup
  have hmem' : ∀ adr2, adr2 ∈ attendeeAddrs (vm.removeAttendee addr) ↔
      ((∃ o, vm.ownAttendee = some o ∧ o.address = adr2) ∨
       (∃ x ∈ vm.inviteModel.bcc.eraseP (fun r => r.address == addr), x.address = adr2) ∨
       (∃ x ∈ vm.updateModel.bcc.eraseP (fun r => r.address == addr), x.address = adr2)) := by
    intro adr2
    rw [mem_attendeeAddrs_iff, hFown, hInv, hUpd]
  have hsubset : ∀ adr2, adr2 ∈ attendeeAddrs (vm.removeAttendee addr) →
      adr2 ∈ attendeeAddrs vm := by
    intro adr2 h
    rcases (hmem' adr2).mp h with h | ⟨x, hx, rfl⟩ | ⟨x, hx, rfl⟩
    · exact (mem_attendeeAddrs_iff vm adr2).mpr (Or.inl h)
    · exact (mem_attendeeAddrs_iff vm _).mpr
        (Or.inr (Or.inl ⟨x, (List.eraseP_sublist _).subset hx, rfl⟩))
    · exact (mem_attendeeAddrs_iff vm _).mpr
        (Or.inr (Or.inr ⟨x, (List.eraseP_sublist _).subset hx, rfl⟩))
  have haddrNotIn : addr ∉ attendeeAddrs (vm.removeAttendee addr) := by
    intro h
    rcases (hmem' addr).mp h with ⟨o, ho, hoa⟩ | ⟨x, hx, hxa⟩ | ⟨x, hx, hxa⟩
    · exact hnm (hoa ▸ (hOwnAtt o ho).1)
    · exact (hinvSurv x hx) hxa
    · exact (hupdSurv x hx) hxa
  have hstatne : ∀ k, k ≠ addr →
      getStatus (vm.removeAttendee addr).guestStatuses k = getStatus vm.guestStatuses k :=
    fun k hk => removeAttendee_status_ne vm addr k hk
  refine ⟨⟨ev0, by rw [hFev]; exact hEv, hEvAtts⟩, by rw [hFtype]; exact hType,
    by rw [hFmail]; exact hMails, hMailsNe, ?_, ?_, ?_, ?_, ?_, ?_⟩
  · intro r' hr'
    have hr'' : r' ∈ vm.inviteModel.bcc.eraseP (fun r => r.address == addr) := by
      rw [hInv] at hr'
      exact hr'
    have hold : r' ∈ vm.inviteModel.bcc := (List.eraseP_sublist _).subset hr''
    have hne : r'.address ≠ addr := hinvSurv r' hr''
    obtain ⟨h1, h2⟩ := hInvBcc r' hold
    rw [hstatne _ hne]
    exact ⟨h1, h2⟩
  · intro r' hr'
    have hr'' : r' ∈ vm.updateModel.bcc.eraseP (fun r => r.address == addr) := by
      rw [hUpd] at hr'
      exact hr'
    have hold : r' ∈ vm.updateModel.bcc := (List.eraseP_sublist _).subset hr''
    have hne : r'.address ≠ addr := hupdSurv r' hr''
    obtain ⟨h1, h2, h3⟩ := hUpdBcc r' hold
    rw [hstatne _ hne]
    exact ⟨h1, h2, h3⟩
  · intro o ho
    have ho' : vm.ownAttendee = some o := by
      rw [hFown] at ho
      exact ho
    obtain ⟨h1, h2⟩ := hOwnAtt o ho'
    have hne : o.address ≠ addr := fun he => hnm (he ▸ h1)
    rw [hstatne _ hne]
    exact ⟨h1, h2⟩
  · intro y hy
    rw [hCan] at hy
    rcases List.mem_append.mp hy with hyold | hynew
    · have hold : y ∈ vm.cancelModel.bcc := (List.eraseP_sublist _).subset hyold
      obtain ⟨h1, h2, h3, h4⟩ := hCanBcc y hold
      exact ⟨h1, h2, fun hin => h3 (hsubset _ hin), List.mem_cons_of_mem _ h4⟩
    · cases hfind : vm.existingEvent.bind
          (fun ev => ev.attendees.find? (fun a => a.address.address == addr)) with
      | none =>
        rw [hfind] at hynew
        cases hynew
      | some ea =>
        rw [hfind] at hynew
        have hyv := List.mem_singleton.mp hynew
        subst hyv
        have hfind2 : ev0.attendees.find? (fun a => a.address.address == addr) = some ea := by
          rw [hEv] at hfind
          exact hfind
        have heaaddr : ea.address.address = addr := by
          simpa [beq_iff_eq] using List.find?_some hfind2
        have heamem : ea ∈ ev0.attendees := List.mem_of_find?_eq_some hfind2
        refine ⟨?_, ?_, ?_, ?_⟩
        · exact List.mem_map.mpr ⟨ea, hEvAtts ▸ heamem, rfl⟩
        · show ea.address.address ∉ mails
          rw [heaaddr]
          exact hnm
        · show ea.address.address ∉ _
          rw [heaaddr]
          exact haddrNotIn
        · show ea.address.address ∈ _
          rw [heaaddr]
          exact List.mem_cons_self _ _
  · intro adr2 ha hm
    by_cases he : adr2 = addr
    · subst he
      right
      have hfex : ∃ ea, ev0.attendees.find? (fun a => a.address.address == adr2) = some ea := by
        rcases List.mem_map.mp ha with ⟨a0, ha0, ha0a⟩
        cases hf : ev0.attendees.find? (fun a => a.address.address == adr2) with
        | some ea => exact ⟨ea, rfl⟩
        | none =>
          have hnone := List.find?_eq_none.mp hf a0 (by rw [hEvAtts]; exact ha0)
          exact absurd (by simpa [beq_iff_eq] using ha0a) hnone
      obtain ⟨ea, hf⟩ := hfex
      have hbind : vm.existingEvent.bind
          (fun ev => ev.attendees.find? (fun a => a.address.address == adr2)) = some ea := by
        rw [hEv]
        exact hf
      apply List.mem_map.mpr
      refine ⟨{ name := ea.address.name, address := ea.address.address,
                rtype := RType.unknown, password := none, pwStrength := 0 }, ?_, ?_⟩
      · rw [hCan, hbind]
        exact List.mem_append_right _ (List.mem_singleton.mpr rfl)
      · show ea.address.address = adr2
        simpa [beq_iff_eq] using List.find?_some hf
    · rcases hCover adr2 ha hm with hin | hcan
      · left
        rcases (mem_attendeeAddrs_iff vm adr2).mp hin with h | ⟨x, hx, rfl⟩ | ⟨x, hx, rfl⟩
        · exact (hmem' adr2).mpr (Or.inl h)
        · exact (hmem' _).mpr
            (Or.inr (Or.inl ⟨x, mem_eraseP_of_ne _ addr x hx he, rfl⟩))
        · exact (hmem' _).mpr
            (Or.inr (Or.inr ⟨x, mem_eraseP_of_ne _ addr x hx he, rfl⟩))
      · right
        rcases List.mem_map.mp hcan with ⟨y, hy, hya⟩
        apply List.mem_map.mpr
        refine ⟨y, ?_, hya⟩
        rw [hCan]
        exact List.mem_append_left _
          (mem_eraseP_of_ne _ addr y hy (by rw [hya]; exact he))
  · have hsubl : (attendeeAddrs (vm.removeAttendee addr)).Sublist (attendeeAddrs vm) := by
      have hs1 : (vm.inviteModel.bcc.eraseP (fun r => r.address == addr)).map
          (fun x => x.address) |>.Sublist (vm.inviteModel.bcc.map (fun x => x.address)) :=
        (List.eraseP_sublist _).map _
      have hs2 : (vm.updateModel.bcc.eraseP (fun r => r.address == addr)).map
          (fun x => x.address) |>.Sublist (vm.updateModel.bcc.map (fun x => x.address)) :=
        (List.eraseP_sublist _).map _
      cases ho : vm.ownAttendee with
      | none =>
        rw [attendeeAddrs_none _ (by rw [hFown]; exact ho), attendeeAddrs_none vm ho,
          hInv, hUpd]
        simp only [List.map_append]
        exact hs1.append hs2
      | some o =>
        rw [attendeeAddrs_some _ o (by rw [hFown]; exact ho), attendeeAddrs_some vm o ho,
          hInv, hUpd]
        simp only [List.map_append]
        exact (hs1.append hs2).cons₂ o.address
    exact hsubl.nodup hNodup

/-- Construction from the user's own existing event establishes the
recipient-diff invariant (distinct original addresses, no stored `ADDED`
status). -/
theorem diffInv_init (ev0 : CalendarEvent) (mails : List String) (res : Resolver)
    (hm : mails ≠ [])
    (hnd : (origAddrs ev0.attendees).Nodup)
    (hna : ∀ att ∈ ev0.attendees, att.status ≠ AttStatus.added) :
    DiffInv ev0.attendees mails [] (mkOwnVM ev0 mails res) := by
  have hbcc : (mkOwnVM ev0 mails res).updateModel.bcc =
      (ev0.attendees.filter (fun a => !(mails.contains a.address.address))).map
        (fun a => res.recipientOf a.address) := by
    show (ev0.attendees.foldl (initStep mails res)
      (none, { bcc := [], confidential := false }, [])).2.1.bcc = _
    rw [initFold_bcc]
    rfl
  have hown : ∀ o, (mkOwnVM ev0 mails res).ownAttendee = some o →
      ∃ a ∈ ev0.attendees, a.address = o ∧ a.address.address ∈ mails := by
    intro o h
    have h' : (ev0.attendees.foldl (initStep mails res)
        (none, { bcc := [], confidential := false }, [])).1 = some o := h
    rcases initFold_own mails res ev0.attendees _ o h' with hr | hacc
    · exact hr
    · cases hacc
  have hstatus : ∀ k v, getStatus (mkOwnVM ev0 mails res).guestStatuses k = some v →
      ∃ a ∈ ev0.attendees, a.address.address = k ∧ a.status = v := by
    intro k v h
    have h' : getStatus (ev0.attendees.foldl (initStep mails res)
        (none, { bcc := [], confidential := false }, [])).2.2 k = some v := h
    rcases initFold_status mails res ev0.attendees _ k v h' with hr | hacc
    · exact hr
    · simp [getStatus, List.find?] at hacc
  have hupdMem : ∀ r ∈ (mkOwnVM ev0 mails res).updateModel.bcc,
      ∃ a ∈ ev0.attendees, r = res.recipientOf a.address ∧
        mails.contains a.address.address = false := by
    intro r hr
    rw [hbcc] at hr
    rcases List.mem_map.mp hr with ⟨a, haf, rfl⟩
    rcases List.mem_filter.mp haf with ⟨ha, hcond⟩
    refine ⟨a, ha, rfl, ?_⟩
    cases hc : mails.contains a.address.address
    · rfl
    · rw [hc] at hcond
      cases hcond
  refine ⟨⟨ev0, rfl, rfl⟩, rfl, rfl, hm, ?_, ?_, ?_, ?_, ?_, ?_⟩
  · intro r hr
    cases hr
  · intro r hr
    obtain ⟨a, ha, rfl, hcf⟩ := hupdMem r hr
    have haddr : (res.recipientOf a.address).address = a.address.address := rfl
    refine ⟨?_, ?_, ?_⟩
    · rw [haddr]
      exact List.mem_map.mpr ⟨a, ha, rfl⟩
    · rw [haddr]
      intro hmem
      rw [(contains_iff_mem mails _).mpr hmem] at hcf
      cases hcf
    · rw [haddr]
      intro hst
      obtain ⟨a', ha', _, hstat⟩ := hstatus _ _ hst
      exact hna a' ha' hstat
  · intro o ho
    obtain ⟨a, ha, hao, hmem⟩ := hown o ho
    refine ⟨?_, ?_⟩
    · rw [← hao]
      exact hmem
    · rw [← hao]
      intro hst
      obtain ⟨a', ha', _, hstat⟩ := hstatus _ _ hst
      exact hna a' ha' hstat
  · intro r hr
    cases hr
  · intro adr hadr hnm
    left
    rcases List.mem_map.mp hadr with ⟨a, ha, rfl⟩
    apply (mem_attendeeAddrs_iff _ _).mpr
    right
    right
    refine ⟨res.recipientOf a.address, ?_, rfl⟩
    rw [hbcc]
    refine List.mem_map.mpr ⟨a, List.mem_filter.mpr ⟨ha, ?_⟩, rfl⟩
    have hc : mails.contains a.address.address = false := by
      cases hc : mails.contains a.address.address
      · rfl
      · exact absurd ((contains_iff_mem _ _).mp hc) hnm
    rw [hc]
    rfl
  · have haddrmap : ((mkOwnVM ev0 mails res).inviteModel.bcc ++
        (mkOwnVM ev0 mails res).updateModel.bcc).map (fun r => r.address) =
        (ev0.attendees.filter (fun a => !(mails.contains a.address.address))).map
          (fun a => a.address.address) := by
      show (([] : List Recipient) ++ (mkOwnVM ev0 mails res).updateModel.bcc).map
        (fun r => r.address) = _
      rw [List.nil_append, hbcc, List.map_map]
      rfl
    have hsub : ((ev0.attendees.filter (fun a => !(mails.contains a.address.address))).map
        (fun a => a.address.address)).Sublist (origAddrs ev0.attendees) :=
      (List.filter_sublist _).map _
    have hnd2 := hsub.nodup hnd
    cases ho : (mkOwnVM ev0 mails res).ownAttendee with
    | none =>
      rw [attendeeAddrs_none _ ho, haddrmap]
      exact hnd2
    | some o =>
      rw [attendeeAddrs_some _ o ho, haddrmap]
      apply List.nodup_cons.mpr
      refine ⟨?_, hnd2⟩
      intro hoin
      rcases List.mem_map.mp hoin with ⟨a, haf, haddr⟩
      rcases List.mem_filter.mp haf with ⟨_, hcond⟩
      obtain ⟨a', _, hao', hmem'⟩ := hown o ho
      have : mails.contains a.address.address = true := by
        apply (contains_iff_mem _ _).mpr
        rw [haddr, ← hao']
        exact hmem'
      rw [this] at hcond
      cases hcond

/-- Executing a clean guest-op history preserves the recipient-diff
invariant for some final removed set. -/
theorem diffInv_exec (orig : List CalAttendee) (mails : List String) (ops : List GuestOp) :
    ∀ (removed : List String) (vm : VMState), DiffInv orig mails removed vm →
      CleanFrom mails removed ops →
      ∃ removed2, DiffInv orig mails removed2 (execOps vm ops) := by
  induction ops with
  | nil =>
    intro removed vm inv _
    exact ⟨removed, inv⟩
  | cons op rest ih =>
    intro removed vm inv hclean
    cases op with
    | add addr t p s =>
      obtain ⟨hna, hrest⟩ := hclean
      exact ih removed (applyOp vm (GuestOp.add addr t p s))
        (diffInv_add orig mails removed vm _ inv hna) hrest
    | remove addr =>
      obtain ⟨hnm, hrest⟩ := hclean
      exact ih (addr :: removed) (applyOp vm (GuestOp.remove addr))
        (diffInv_remove orig mails removed vm addr inv hnm) hrest

/-- The classification of the save-time recipient diff, read off the
invariant: non-own addresses fall into exactly one channel, own addresses
never into the update or cancel channel (they can sit in the invite
model: `addAttendee` inserts own addresses there like any other). -/
theorem classify_of_diffInv (orig : List CalAttendee) (mails removed : List String)
    (vm : VMState) (inv : DiffInv orig mails removed vm) (addr : String) :
    (addr ∉ mails → addr ∈ origAddrs orig → addr ∈ attendeeAddrs vm →
      addr ∈ updatedAddresses vm ∧ addr ∉ invitedAddresses vm ∧
        addr ∉ cancelledAddresses vm) ∧
    (addr ∉ mails → addr ∉ origAddrs orig → addr ∈ attendeeAddrs vm →
      addr ∈ invitedAddresses vm ∧ addr ∉ updatedAddresses vm ∧
        addr ∉ cancelledAddresses vm) ∧
    (addr ∉ mails → addr ∈ origAddrs orig → addr ∉ attendeeAddrs vm →
      addr ∈ cancelledAddresses vm ∧ addr ∉ invitedAddresses vm ∧
        addr ∉ updatedAddresses vm) ∧
    (addr ∈ mails → addr ∉ updatedAddresses vm ∧ addr ∉ cancelledAddresses vm) := by
  obtain ⟨⟨ev0, hEv, hEvAtts⟩, hType, hMails, hMailsNe, hInvBcc, hUpdBcc, hOwnAtt, hCanBcc,
    hCover, hNodup⟩ := inv
  have hNotCan : ∀ a2, a2 ∈ attendeeAddrs vm → a2 ∉ cancelledAddresses vm := by
    intro a2 hin hcan
    rcases (mem_cancelled_iff vm a2).mp hcan with ⟨r, hr, rfl⟩
    exact (hCanBcc r hr).2.2.1 hin
  refine ⟨?_, ?_, ?_, ?_⟩
  · intro hnm horig hin
    refine ⟨?_, ?_, hNotCan addr hin⟩
    · apply (mem_updated_iff vm ev0 hEv hType addr).mpr
      refine ⟨hin, by rw [hMails]; exact hnm, ?_⟩
      rcases List.mem_map.mp horig with ⟨a, ha, haddr⟩
      exact ⟨a, by rw [hEvAtts]; exact ha, haddr⟩
    · intro hinv
      rcases (mem_invited_iff vm addr).mp hinv with ⟨r, hr, rfl⟩
      exact ((hInvBcc r hr).2 hnm) horig
  · intro hnm hnorig hin
    refine ⟨?_, ?_, hNotCan addr hin⟩
    · rcases (mem_attendeeAddrs_iff vm addr).mp hin with ⟨o, ho, rfl⟩ | ⟨r, hr, rfl⟩ |
        ⟨r, hr, rfl⟩
      · exact absurd (hOwnAtt o ho).1 hnm
      · exact (mem_invited_iff vm _).mpr ⟨r, hr, rfl⟩
      · exact absurd (hUpdBcc r hr).1 hnorig
    · intro hupd
      rcases ((mem_updated_iff vm ev0 hEv hType addr).mp hupd).2.2 with ⟨a, ha, haddr⟩
      refine hnorig (List.mem_map.mpr ⟨a, ?_, haddr⟩)
      rw [← hEvAtts]
      exact ha
  · intro hnm horig hnin
    have hcan : addr ∈ cancelledAddresses vm := by
      rcases hCover addr horig hnm with h | h
      · exact absurd h hnin
      · rcases List.mem_map.mp h with ⟨r, hr, rfl⟩
        exact (mem_cancelled_iff vm _).mpr ⟨r, hr, rfl⟩
    refine ⟨hcan, ?_, ?_⟩
    · intro hinv
      exact hnin (invited_subset_attendees vm addr hinv)
    · intro hupd
      exact hnin (updated_subset_attendees vm ev0 hEv hType addr hupd)
  · intro hself
    refine ⟨?_, ?_⟩
    · intro hupd
      have hx := ((mem_updated_iff vm ev0 hEv hType addr).mp hupd).2.1
      rw [hMails] at hx
      exact hx hself
    · intro hcan
      rcases (mem_cancelled_iff vm addr).mp hcan with ⟨r, hr, rfl⟩
      exact (hCanBcc r hr).2.1 hself

/-- A resolver with fixed attributes, used for the concrete recipient-diff
scenarios. -/
def res0 : Resolver :=
  { rtypeOf := fun _ => RType.external, passwordOf := fun _ => none, strengthOf := fun _ => 80 }

/-- An existing own event with the user (`self@a`, accepted) and one other
attendee (`b@y`, needs action). -/
def evX5 : CalendarEvent :=
  { createCalendarEvent0 with
    hasId := true,
    attendees := [{ address := { name := "Me", address := "self@a" },
                    status := AttStatus.accepted },
                  { address := { name := "B", address := "b@y" },
                    status := AttStatus.needsAction }] }

/-- C5: the claim as stated fails on the embedded code: `removeAttendee`
does not skip the user's own address, so removing it from the guest list
puts a self-address into the cancel model and hence into the cancel
notification category — self-addresses are not excluded from all three
categories. -/
theorem recipientDiff_self_in_cancel_counterexample :
    "self@a" ∈ (mkOwnVM evX5 ["self@a"] res0).mailAddresses ∧
      "self@a" ∈ cancelledAddresses
        (execOps (mkOwnVM evX5 ["self@a"] res0) [GuestOp.remove "self@a"]) := by
  constructor
  · decide
  · decide

/-- C5 (amended): on the user's own event, after any clean guest-list edit
history (no removed address is re-added and no own address is removed),
the save-time recipient diff classifies each non-own address into exactly
one channel: present in both original and current attendee lists → update
category only; present only in the current list → invite category only;
present only in the original list → cancel category only. Own (self)
addresses are excluded from the update and cancel categories — but not
from the invite channel: `addAttendee` inserts an added own address into
the invite send model like any other recipient, and `_sendInvite` sends
to the whole model. -/
theorem recipientDiff_classification (ev0 : CalendarEvent) (mails : List String)
    (res : Resolver) (ops : List GuestOp) (hm : mails ≠ [])
    (hnd : (origAddrs ev0.attendees).Nodup)
    (hna : ∀ att ∈ ev0.attendees, att.status ≠ AttStatus.added)
    (hclean : CleanFrom mails [] ops) (addr : String) :
    (addr ∉ mails → addr ∈ origAddrs ev0.attendees →
      addr ∈ attendeeAddrs (execOps (mkOwnVM ev0 mails res) ops) →
      addr ∈ updatedAddresses (execOps (mkOwnVM ev0 mails res) ops) ∧
        addr ∉ invitedAddresses (execOps (mkOwnVM ev0 mails res) ops) ∧
        addr ∉ cancelledAddresses (execOps (mkOwnVM ev0 mails res) ops)) ∧
    (addr ∉ mails → addr ∉ origAddrs ev0.attendees →
      addr ∈ attendeeAddrs (execOps (mkOwnVM ev0 mails res) ops) →
      addr ∈ invitedAddresses (execOps (mkOwnVM ev0 mails res) ops) ∧
        addr ∉ updatedAddresses (execOps (mkOwnVM ev0 mails res) ops) ∧
        addr ∉ cancelledAddresses (execOps (mkOwnVM ev0 mails res) ops)) ∧
    (addr ∉ mails → addr ∈ origAddrs ev0.attendees →
      addr ∉ attendeeAddrs (execOps (mkOwnVM ev0 mails res) ops) →
      addr ∈ cancelledAddresses (execOps (mkOwnVM ev0 mails res) ops) ∧
        addr ∉ invitedAddresses (execOps (mkOwnVM ev0 mails res) ops) ∧
        addr ∉ updatedAddresses (execOps (mkOwnVM ev0 mails res) ops)) ∧
    (addr ∈ mails →
      addr ∉ updatedAddresses (execOps (mkOwnVM ev0 mails res) ops) ∧
        addr ∉ cancelledAddresses (execOps (mkOwnVM ev0 mails res) ops)) := by
  obtain ⟨removed2, inv⟩ := diffInv_exec ev0.attendees mails ops [] (mkOwnVM ev0 mails res)
    (diffInv_init ev0 mails res hm hnd hna) hclean
  exact classify_of_diffInv ev0.attendees mails removed2 _ inv addr

/-- A concrete clean edit on `evX5` — add `c@z`, remove `b@y` — lands
`c@z` in the invite category only, `b@y` in the cancel category only, and
`self@a` in no category. -/
theorem recipientDiff_classification_witness :
    ("b@y" ∈ cancelledAddresses (execOps (mkOwnVM evX5 ["self@a"] res0)
        [GuestOp.add "c@z" RType.external none 80, GuestOp.remove "b@y"]) ∧
      "b@y" ∉ invitedAddresses (execOps (mkOwnVM evX5 ["self@a"] res0)
        [GuestOp.add "c@z" RType.external none 80, GuestOp.remove "b@y"]) ∧
      "b@y" ∉ updatedAddresses (execOps (mkOwnVM evX5 ["self@a"] res0)
        [GuestOp.add "c@z" RType.external none 80, GuestOp.remove "b@y"])) ∧
    ("c@z" ∈ invitedAddresses (execOps (mkOwnVM evX5 ["self@a"] res0)
        [GuestOp.add "c@z" RType.external none 80, GuestOp.remove "b@y"]) ∧
      "self@a" ∉ cancelledAddresses (execOps (mkOwnVM evX5 ["self@a"] res0)
        [GuestOp.add "c@z" RType.external none 80, GuestOp.remove "b@y"])) := by
  have h1 := recipientDiff_classification evX5 ["self@a"] res0
    [GuestOp.add "c@z" RType.external none 80, GuestOp.remove "b@y"]
    (by decide) (by decide) (by decide)
    ⟨by decide, by decide, trivial⟩ "b@y"
  have h2 := recipientDiff_classification evX5 ["self@a"] res0
    [GuestOp.add "c@z" RType.external none 80, GuestOp.remove "b@y"]
    (by decide) (by decide) (by decide)
    ⟨by decide, by decide, trivial⟩ "c@z"
  have h3 := recipientDiff_classification evX5 ["self@a"] res0
    [GuestOp.add "c@z" RType.external none 80, GuestOp.remove "b@y"]
    (by decide) (by decide) (by decide)
    ⟨by decide, by decide, trivial⟩ "self@a"
  refine ⟨h1.2.2.1 (by decide) (by decide) (by decide),
    (h2.2.1 (by decide) (by decide) (by decide)).1, (h3.2.2.2 (by decide)).2⟩

end Tutanota
